import Mathlib

/-!
Verification of the queue manager in
src/pkg/project-generator/scalable-queue-arcitecture.py.

The Redis store is shallowly embedded as a record of the structures the
program keys (pending sorted set, in-flight list, completed/failed rings,
job hashes, monthly counters), each Redis call becomes an operation on the
corresponding component, and every mutating call also appends an event to a
write log so that write-ordering claims are statable.  Python floats
(time.time scores) are modelled as rationals; datetimes as a record of
calendar fields; JSON payloads as an inductive value type with a verified
dumps/loads codec mirroring json.dumps / json.loads.
-/

namespace Codriver

/-! ### Characters and decimal digits -/

/-- The decimal digit character for a digit value below ten. -/
def digitChar (d : Nat) : Char :=
  Char.ofNat (48 + d)

/-- Decimal digit test on characters, as Python's int parsing uses. -/
def isDigitC (c : Char) : Bool :=
  48 ≤ c.toNat && c.toNat ≤ 57

/-- Value of a decimal digit character. -/
def digitVal (c : Char) : Nat :=
  c.toNat - 48

theorem digitChar_isDigit {d : Nat} (h : d < 10) : isDigitC (digitChar d) = true := by
  interval_cases d <;> decide

theorem digitVal_digitChar {d : Nat} (h : d < 10) : digitVal (digitChar d) = d := by
  interval_cases d <;> decide

/-! ### Fixed-width zero-padded decimal rendering and parsing
(the shape strftime and isoformat emit). -/

/-- Render `n` as exactly `k` decimal digits, most significant first
(zero-padded, truncating above `10^k`). -/
def padNum : Nat → Nat → List Char
  | 0, _ => []
  | k + 1, n => digitChar (n / 10 ^ k % 10) :: padNum k (n % 10 ^ k)

/-- Parse exactly `k` decimal digits into the accumulator. -/
def parseFix : Nat → Nat → List Char → Option (Nat × List Char)
  | 0, acc, cs => some (acc, cs)
  | k + 1, acc, cs =>
    match cs with
    | [] => none
    | c :: r => if isDigitC c then parseFix k (acc * 10 + digitVal c) r else none

theorem parseFix_padNum : ∀ (k acc n : Nat) (rest : List Char), n < 10 ^ k →
    parseFix k acc (padNum k n ++ rest) = some (acc * 10 ^ k + n, rest) := by
  intro k
  induction k with
  | zero => intro acc n rest h; interval_cases n; simp [padNum, parseFix]
  | succ k ih =>
    intro acc n rest h
    have hd : n / 10 ^ k % 10 < 10 := Nat.mod_lt _ (by norm_num)
    have hm : n % 10 ^ k < 10 ^ k := Nat.mod_lt _ (Nat.pos_pow_of_pos k (by norm_num))
    simp only [padNum, List.cons_append, parseFix, digitChar_isDigit hd, if_true,
      digitVal_digitChar hd, ih _ _ rest hm]
    have hsmall : n / 10 ^ k < 10 :=
      Nat.div_lt_of_lt_mul (by simpa [pow_succ] using h)
    have hmod : n / 10 ^ k % 10 = n / 10 ^ k := Nat.mod_eq_of_lt hsmall
    rw [hmod]
    have hdm := Nat.div_add_mod n (10 ^ k)
    simp only [Option.some.injEq, Prod.mk.injEq, and_true]
    rw [pow_succ]
    zify
    zify at hdm
    linear_combination hdm

/-! ### Variable-width decimal rendering (Python str of a non-negative int)
and greedy digit parsing (the shape int() and json.loads accept). -/

/-- Digit rendering worker; the fuel only bounds recursion depth so the
definition stays kernel-reducible. -/
def natDigitsAux : Nat → Nat → List Char
  | 0, _ => []
  | _ + 1, 0 => []
  | fuel + 1, n + 1 => natDigitsAux fuel ((n + 1) / 10) ++ [digitChar ((n + 1) % 10)]

/-- Decimal digits of a positive number, most significant first; `[]` for zero. -/
def natDigits (n : Nat) : List Char := natDigitsAux n n

theorem natDigitsAux_fuel : ∀ (n f1 f2 : Nat), n ≤ f1 → n ≤ f2 →
    natDigitsAux f1 n = natDigitsAux f2 n := by
  intro n
  induction n using Nat.strong_induction_on with
  | _ n ih =>
    intro f1 f2 h1 h2
    match n, f1, f2, h1, h2 with
    | 0, 0, 0, _, _ => rfl
    | 0, 0, b + 1, _, _ => rfl
    | 0, a + 1, 0, _, _ => rfl
    | 0, a + 1, b + 1, _, _ => rfl
    | m + 1, a + 1, b + 1, h1, h2 =>
      rw [natDigitsAux, natDigitsAux]
      have hd : (m + 1) / 10 < m + 1 := Nat.div_lt_self (Nat.succ_pos m) (by norm_num)
      rw [ih ((m + 1) / 10) hd a b (by omega) (by omega)]

theorem natDigits_succ (m : Nat) :
    natDigits (m + 1) = natDigits ((m + 1) / 10) ++ [digitChar ((m + 1) % 10)] := by
  have hd : (m + 1) / 10 < m + 1 := Nat.div_lt_self (Nat.succ_pos m) (by norm_num)
  rw [natDigits, natDigits, natDigitsAux,
    natDigitsAux_fuel ((m + 1) / 10) m ((m + 1) / 10) (by omega) (le_refl _)]

/-- Python's str of a non-negative integer. -/
def natRepr (n : Nat) : List Char :=
  if n = 0 then [digitChar 0] else natDigits n

/-- Left fold of digit values, as a greedy integer parser accumulates them. -/
def digitsVal (acc : Nat) (ds : List Char) : Nat :=
  ds.foldl (fun a c => a * 10 + digitVal c) acc

/-- Greedy parse of a nonempty run of decimal digits. -/
def parseNatG (cs : List Char) : Option (Nat × List Char) :=
  let ds := cs.takeWhile isDigitC
  if ds.isEmpty then none else some (digitsVal 0 ds, cs.dropWhile isDigitC)

theorem natDigits_all_digits : ∀ n, ∀ c ∈ natDigits n, isDigitC c = true := by
  intro n
  induction n using Nat.strong_induction_on with
  | _ n ih =>
    match n with
    | 0 => intro c hc; simp [natDigits, natDigitsAux] at hc
    | m + 1 =>
      intro c hc
      rw [natDigits_succ] at hc
      rcases List.mem_append.mp hc with h | h
      · exact ih ((m + 1) / 10) (Nat.div_lt_self (Nat.succ_pos m) (by norm_num)) c h
      · simp at h
        subst h
        exact digitChar_isDigit (Nat.mod_lt _ (by norm_num))

theorem natRepr_all_digits : ∀ n, ∀ c ∈ natRepr n, isDigitC c = true := by
  intro n c hc
  by_cases h : n = 0
  · subst h; simp [natRepr] at hc; subst hc; decide
  · rw [natRepr, if_neg h] at hc; exact natDigits_all_digits n c hc

theorem natRepr_ne_nil (n : Nat) : natRepr n ≠ [] := by
  by_cases h : n = 0
  · subst h; simp [natRepr]
  · rw [natRepr, if_neg h]
    match hm : n, h with
    | m + 1, _ =>
      rw [natDigits_succ]
      simp

theorem digitsVal_append (acc : Nat) (l1 l2 : List Char) :
    digitsVal acc (l1 ++ l2) = digitsVal (digitsVal acc l1) l2 := by
  simp [digitsVal, List.foldl_append]

theorem digitsVal_natDigits : ∀ n acc, digitsVal acc (natDigits n) = acc * 10 ^ (natDigits n).length + n := by
  intro n
  induction n using Nat.strong_induction_on with
  | _ n ih =>
    match n with
    | 0 => intro acc; simp [natDigits, natDigitsAux, digitsVal]
    | m + 1 =>
      intro acc
      rw [natDigits_succ, digitsVal_append]
      have hlt : (m + 1) / 10 < m + 1 := Nat.div_lt_self (Nat.succ_pos m) (by norm_num)
      rw [ih _ hlt acc]
      simp only [digitsVal, List.foldl_cons, List.foldl_nil, List.length_append,
        List.length_cons, List.length_nil]
      rw [digitVal_digitChar (Nat.mod_lt _ (by norm_num))]
      have := Nat.div_add_mod (m + 1) 10
      ring_nf
      omega

theorem digitsVal_natRepr (n : Nat) : digitsVal 0 (natRepr n) = n := by
  by_cases h : n = 0
  · subst h; simp [natRepr, digitsVal, digitVal, digitChar]
  · rw [natRepr, if_neg h, digitsVal_natDigits]; simp

/-- A list is not headed by a decimal digit (greedy parses stop here). -/
def noDigitHead (cs : List Char) : Prop :=
  ∀ c, cs.head? = some c → isDigitC c = false

theorem takeWhile_all_append {p : Char → Bool} (l1 l2 : List Char)
    (h1 : ∀ c ∈ l1, p c = true)
    (h2 : ∀ c, l2.head? = some c → p c = false) :
    (l1 ++ l2).takeWhile p = l1 ∧ (l1 ++ l2).dropWhile p = l2 := by
  induction l1 with
  | nil =>
    simp only [List.nil_append]
    match l2 with
    | [] => simp
    | c :: t => simp [List.takeWhile_cons, List.dropWhile_cons, h2 c rfl]
  | cons a t ih =>
    have ha : p a = true := h1 a (by simp)
    have := ih (fun c hc => h1 c (by simp [hc]))
    simp [List.takeWhile_cons, List.dropWhile_cons, ha, this.1, this.2]

theorem parseNatG_natRepr (n : Nat) (rest : List Char) (hrest : noDigitHead rest) :
    parseNatG (natRepr n ++ rest) = some (n, rest) := by
  have ht := takeWhile_all_append (natRepr n) rest (natRepr_all_digits n) hrest
  rw [parseNatG]
  simp only [ht.1, ht.2]
  rw [if_neg (by simp [List.isEmpty_iff, natRepr_ne_nil n])]
  rw [digitsVal_natRepr]

/-! ### Python str of an int, and int() parsing of it -/

/-- Python's str of an arbitrary integer. -/
def intReprL (n : Int) : List Char :=
  if n < 0 then '-' :: natRepr (-n).toNat else natRepr n.toNat

/-- Parse an optional minus sign followed by a greedy run of digits. -/
def parseIntL : List Char → Option (Int × List Char)
  | [] => none
  | c :: r =>
    if c = '-' then (parseNatG r).map (fun p => (-(p.1 : Int), p.2))
    else (parseNatG (c :: r)).map (fun p => ((p.1 : Int), p.2))

theorem parseIntL_intReprL (n : Int) (rest : List Char) (hrest : noDigitHead rest) :
    parseIntL (intReprL n ++ rest) = some (n, rest) := by
  by_cases h : n < 0
  · rw [intReprL, if_pos h, List.cons_append, parseIntL, if_pos rfl,
      parseNatG_natRepr _ rest hrest]
    simp only [Option.map]
    congr 2
    have hc : ((-n).toNat : Int) = -n := Int.toNat_of_nonneg (by omega)
    rw [hc, neg_neg]
  · rw [intReprL, if_neg h]
    obtain ⟨c, t, hct⟩ : ∃ c t, natRepr n.toNat = c :: t := by
      match hnr : natRepr n.toNat with
      | [] => exact absurd hnr (natRepr_ne_nil _)
      | c :: t => exact ⟨c, t, rfl⟩
    have hcdig : isDigitC c = true := by
      have := natRepr_all_digits n.toNat c (by rw [hct]; simp)
      exact this
    have hcne : ¬(c = '-') := by
      intro hc
      subst hc
      exact absurd hcdig (by decide)
    rw [hct, List.cons_append, parseIntL, if_neg hcne]
    have hp := parseNatG_natRepr n.toNat rest hrest
    rw [hct, List.cons_append] at hp
    rw [hp]
    simp only [Option.map]
    congr 2
    exact Int.toNat_of_nonneg (by omega)

/-- Python int() applied to a whole string of the shape str(int) emits. -/
def parseIntString (s : String) : Option Int :=
  match parseIntL s.data with
  | some (i, []) => some i
  | _ => none

theorem parseIntString_intReprL (n : Int) : parseIntString (String.mk (intReprL n)) = some n := by
  have := parseIntL_intReprL n [] (by intro c hc; simp at hc)
  simp only [List.append_nil] at this
  simp [parseIntString, this]

/-! ### Hexadecimal, for json.dumps \\u escapes -/

/-- Lowercase hexadecimal digit character. -/
def hexDigitChar (d : Nat) : Char :=
  if d < 10 then digitChar d else Char.ofNat (87 + d)

/-- Value of a hexadecimal digit character (either case accepted, as json.loads does). -/
def hexVal (c : Char) : Option Nat :=
  if isDigitC c then some (digitVal c)
  else if 97 ≤ c.toNat && c.toNat ≤ 102 then some (c.toNat - 87)
  else if 65 ≤ c.toNat && c.toNat ≤ 70 then some (c.toNat - 55)
  else none

theorem hexVal_hexDigitChar {d : Nat} (h : d < 16) : hexVal (hexDigitChar d) = some d := by
  interval_cases d <;> decide

/-- Four hex digits, most significant first, as the %04x format of json.dumps emits. -/
def hex4 (v : Nat) : List Char :=
  [hexDigitChar (v / 4096 % 16), hexDigitChar (v / 256 % 16),
   hexDigitChar (v / 16 % 16), hexDigitChar (v % 16)]

/-- Parse exactly four hex digits. -/
def parseHex4 : List Char → Option (Nat × List Char)
  | a :: b :: c :: d :: r =>
    match hexVal a, hexVal b, hexVal c, hexVal d with
    | some va, some vb, some vc, some vd => some (((va * 16 + vb) * 16 + vc) * 16 + vd, r)
    | _, _, _, _ => none
  | _ => none

theorem parseHex4_hex4 (v : Nat) (rest : List Char) (h : v < 65536) :
    parseHex4 (hex4 v ++ rest) = some (v, rest) := by
  have h1 : v / 4096 % 16 < 16 := Nat.mod_lt _ (by norm_num)
  have h2 : v / 256 % 16 < 16 := Nat.mod_lt _ (by norm_num)
  have h3 : v / 16 % 16 < 16 := Nat.mod_lt _ (by norm_num)
  have h4 : v % 16 < 16 := Nat.mod_lt _ (by norm_num)
  simp only [hex4, List.cons_append, List.nil_append, parseHex4,
    hexVal_hexDigitChar h1, hexVal_hexDigitChar h2, hexVal_hexDigitChar h3,
    hexVal_hexDigitChar h4]
  simp only [Option.some.injEq, Prod.mk.injEq, and_true]
  omega

/-! ### Datetimes: the calendar fields datetime carries, with isoformat and
fromisoformat restricted to the grammar isoformat emits -/

/-- A Python datetime value (naive, microsecond precision). -/
structure DT where
  year : Nat
  month : Nat
  day : Nat
  hour : Nat
  minute : Nat
  second : Nat
  usec : Nat
deriving DecidableEq

/-- Field bounds under which the zero-padded rendering is faithful; every
datetime Python constructs satisfies them, and every parse produces them. -/
def DT.wf (d : DT) : Prop :=
  d.year < 10000 ∧ d.month < 100 ∧ d.day < 100 ∧ d.hour < 100 ∧
    d.minute < 100 ∧ d.second < 100 ∧ d.usec < 1000000

instance (d : DT) : Decidable d.wf := by
  unfold DT.wf
  infer_instance

/-- The isoformat rendering with a given date/time separator: 'T' for
isoformat(), ' ' for str(); the fractional part is omitted when the
microsecond field is zero, exactly as datetime.isoformat does. -/
def isoSepL (sep : Char) (d : DT) : List Char :=
  padNum 4 d.year ++ '-' :: padNum 2 d.month ++ '-' :: padNum 2 d.day ++
    sep :: padNum 2 d.hour ++ ':' :: padNum 2 d.minute ++ ':' :: padNum 2 d.second ++
    (if d.usec = 0 then [] else '.' :: padNum 6 d.usec)

/-- datetime.isoformat(). -/
def isoL (d : DT) : List Char := isoSepL 'T' d

/-- str(datetime), which Python renders with a space separator. -/
def strDTL (d : DT) : List Char := isoSepL ' ' d

/-- datetime.isoformat() as a Lean String. -/
def isoString (d : DT) : String := String.mk (isoL d)

/-- Expect one specific character. -/
def expectChar (c : Char) : List Char → Option (List Char)
  | [] => none
  | x :: r => if x = c then some r else none

/-- Expect the date/time separator, 'T' or ' '. -/
def expectSep : List Char → Option (List Char)
  | [] => none
  | x :: r => if x = 'T' || x = ' ' then some r else none

/-- Optional fractional-seconds tail of an isoformat timestamp. -/
def parseFrac (y mo da ho mi se : Nat) : List Char → Option (DT × List Char)
  | '.' :: r2 =>
    (parseFix 6 0 r2).bind fun pus => some (⟨y, mo, da, ho, mi, se, pus.1⟩, pus.2)
  | r => some (⟨y, mo, da, ho, mi, se, 0⟩, r)

/-- datetime.fromisoformat, on the grammar isoformat itself emits. -/
def parseDT (cs : List Char) : Option (DT × List Char) :=
  (parseFix 4 0 cs).bind fun py =>
  (expectChar '-' py.2).bind fun r1 =>
  (parseFix 2 0 r1).bind fun pmo =>
  (expectChar '-' pmo.2).bind fun r2 =>
  (parseFix 2 0 r2).bind fun pda =>
  (expectSep pda.2).bind fun r3 =>
  (parseFix 2 0 r3).bind fun pho =>
  (expectChar ':' pho.2).bind fun r4 =>
  (parseFix 2 0 r4).bind fun pmi =>
  (expectChar ':' pmi.2).bind fun r5 =>
  (parseFix 2 0 r5).bind fun pse =>
  parseFrac py.1 pmo.1 pda.1 pho.1 pmi.1 pse.1 pse.2

/-- datetime.fromisoformat applied to a whole string. -/
def fromisoString (s : String) : Option DT :=
  match parseDT s.data with
  | some (d, []) => some d
  | _ => none

theorem expectChar_cons (c : Char) (r : List Char) : expectChar c (c :: r) = some r := by
  simp [expectChar]

theorem expectSep_T (r : List Char) : expectSep ('T' :: r) = some r := by
  simp [expectSep]

theorem parseFrac_nil (y mo da ho mi se : Nat) :
    parseFrac y mo da ho mi se [] = some (⟨y, mo, da, ho, mi, se, 0⟩, []) := rfl

theorem parseFrac_dot (y mo da ho mi se : Nat) (r : List Char) :
    parseFrac y mo da ho mi se ('.' :: r) =
      (parseFix 6 0 r).bind fun pus => some (⟨y, mo, da, ho, mi, se, pus.1⟩, pus.2) := rfl

theorem parseDT_isoL (d : DT) (hwf : d.wf) : parseDT (isoL d) = some (d, []) := by
  obtain ⟨h1, h2, h3, h4, h5, h6, h7⟩ := hwf
  by_cases hu : d.usec = 0
  · have hiso : isoL d = padNum 4 d.year ++ '-' :: (padNum 2 d.month ++ '-' :: (padNum 2 d.day ++
        'T' :: (padNum 2 d.hour ++ ':' :: (padNum 2 d.minute ++ (':' :: padNum 2 d.second))))) := by
      simp [isoL, isoSepL, hu]
    have hsec := parseFix_padNum 2 0 d.second [] h6
    simp only [List.append_nil] at hsec
    rw [hiso, parseDT, parseFix_padNum 4 0 d.year _ h1]
    simp only [Option.some_bind, expectChar_cons, expectSep_T, Nat.zero_mul, Nat.zero_add,
      parseFix_padNum 2 0 d.month _ h2, parseFix_padNum 2 0 d.day _ h3,
      parseFix_padNum 2 0 d.hour _ h4, parseFix_padNum 2 0 d.minute _ h5, hsec,
      parseFrac_nil]
    rw [← hu]
  · have hiso : isoL d = padNum 4 d.year ++ '-' :: (padNum 2 d.month ++ '-' :: (padNum 2 d.day ++
        'T' :: (padNum 2 d.hour ++ ':' :: (padNum 2 d.minute ++ (':' :: (padNum 2 d.second ++
          '.' :: padNum 6 d.usec)))))) := by
      simp [isoL, isoSepL, hu]
    have hus := parseFix_padNum 6 0 d.usec [] h7
    simp only [List.append_nil] at hus
    rw [hiso, parseDT, parseFix_padNum 4 0 d.year _ h1]
    simp only [Option.some_bind, expectChar_cons, expectSep_T, Nat.zero_mul, Nat.zero_add,
      parseFix_padNum 2 0 d.month _ h2, parseFix_padNum 2 0 d.day _ h3,
      parseFix_padNum 2 0 d.hour _ h4, parseFix_padNum 2 0 d.minute _ h5,
      parseFix_padNum 2 0 d.second _ h6, parseFrac_dot, hus]

theorem fromisoString_isoString (d : DT) (hwf : d.wf) :
    fromisoString (isoString d) = some d := by
  simp [fromisoString, isoString, parseDT_isoL d hwf]

/-! ### JSON string escaping, as json.dumps with ensure_ascii emits and
json.loads reads back -/

/-- The double-quote character. -/
def cQuote : Char := Char.ofNat 34

/-- The backslash character. -/
def cBack : Char := Char.ofNat 92

/-- The left curly brace. -/
def cLBrace : Char := Char.ofNat 123

/-- The right curly brace. -/
def cRBrace : Char := Char.ofNat 125

/-- json.dumps escaping of one character: quote, backslash and the five named
control escapes; other characters outside the printable ASCII range become
lowercase 4-digit u-escapes, with a surrogate pair above the BMP. -/
def escChar (c : Char) : List Char :=
  if c = cQuote then [cBack, cQuote]
  else if c = cBack then [cBack, cBack]
  else if c = Char.ofNat 10 then [cBack, 'n']
  else if c = Char.ofNat 13 then [cBack, 'r']
  else if c = Char.ofNat 9 then [cBack, 't']
  else if c = Char.ofNat 8 then [cBack, 'b']
  else if c = Char.ofNat 12 then [cBack, 'f']
  else if 32 ≤ c.toNat && c.toNat ≤ 126 then [c]
  else if c.toNat < 65536 then cBack :: 'u' :: hex4 c.toNat
  else cBack :: 'u' :: hex4 (55296 + (c.toNat - 65536) / 1024) ++
    cBack :: 'u' :: hex4 (56320 + (c.toNat - 65536) % 1024)

/-- json.dumps escaping of a whole string body. -/
def escStr : List Char → List Char
  | [] => []
  | c :: r => escChar c ++ escStr r

/-- Decode the remainder of a low-surrogate escape after a high surrogate `v`. -/
def parseEscU2 (v : Nat) (r2 : List Char) : Option (Char × List Char) :=
  match r2 with
  | b1 :: u1 :: r3 =>
    if b1 = cBack ∧ u1 = 'u' then
      match parseHex4 r3 with
      | none => none
      | some (w, r4) =>
        if 56320 ≤ w ∧ w ≤ 57343 then
          some (Char.ofNat (65536 + (v - 55296) * 1024 + (w - 56320)), r4)
        else none
    else none
  | _ => none

/-- Decode a u-escape body (after the backslash and the letter u). -/
def parseEscU (r : List Char) : Option (Char × List Char) :=
  match parseHex4 r with
  | none => none
  | some (v, r2) =>
    if 55296 ≤ v ∧ v ≤ 57343 then
      if v ≤ 56319 then parseEscU2 v r2 else none
    else some (Char.ofNat v, r2)

/-- Decode one escape sequence after its leading backslash. -/
def parseEsc : List Char → Option (Char × List Char)
  | [] => none
  | c :: r =>
    if c = 'u' then parseEscU r
    else if c = cQuote then some (cQuote, r)
    else if c = cBack then some (cBack, r)
    else if c = '/' then some ('/', r)
    else if c = 'n' then some (Char.ofNat 10, r)
    else if c = 'r' then some (Char.ofNat 13, r)
    else if c = 't' then some (Char.ofNat 9, r)
    else if c = 'b' then some (Char.ofNat 8, r)
    else if c = 'f' then some (Char.ofNat 12, r)
    else none

theorem char_toNat_valid (c : Char) :
    c.toNat < 55296 ∨ (57343 < c.toNat ∧ c.toNat < 1114112) := c.valid

theorem parseEsc_u (r : List Char) : parseEsc ('u' :: r) = parseEscU r := by
  simp [parseEsc]

theorem parseEscU_bmp (v : Nat) (r : List Char) (hb : v < 65536)
    (hsur : ¬(55296 ≤ v ∧ v ≤ 57343)) :
    parseEscU (hex4 v ++ r) = some (Char.ofNat v, r) := by
  simp [parseEscU, parseHex4_hex4 _ _ hb, if_neg hsur]

theorem parseEscU_pair (v w : Nat) (r : List Char)
    (hv1 : 55296 ≤ v) (hv2 : v ≤ 56319) (hw1 : 56320 ≤ w) (hw2 : w ≤ 57343) :
    parseEscU (hex4 v ++ (cBack :: 'u' :: (hex4 w ++ r))) =
      some (Char.ofNat (65536 + (v - 55296) * 1024 + (w - 56320)), r) := by
  have hvb : v < 65536 := by omega
  have hwb : w < 65536 := by omega
  have hv3 : v ≤ 57343 := by omega
  simp [parseEscU, parseHex4_hex4 _ _ hvb, parseEscU2, parseHex4_hex4 _ _ hwb,
    hv1, hv2, hv3, hw1, hw2]

/-- Every escape json.dumps emits decodes back to the character it encoded:
either the character is kept literally, or its escape tail round-trips
through parseEsc. -/
theorem escChar_cases (c : Char) :
    (escChar c = [c] ∧ c ≠ cQuote ∧ c ≠ cBack ∧ 32 ≤ c.toNat) ∨
    (∃ e, escChar c = cBack :: e ∧ ∀ rest, parseEsc (e ++ rest) = some (c, rest)) := by
  by_cases h1 : c = cQuote
  · subst h1
    exact Or.inr ⟨[cQuote], by rw [escChar, if_pos rfl], fun rest => by
      simp [parseEsc, cQuote, cBack]⟩
  by_cases h2 : c = cBack
  · subst h2
    exact Or.inr ⟨[cBack], by rw [escChar, if_neg (by decide), if_pos rfl], fun rest => by
      simp [parseEsc, cQuote, cBack]⟩
  by_cases h3 : c = Char.ofNat 10
  · subst h3
    refine Or.inr ⟨['n'], ?_, fun rest => by simp [parseEsc, cQuote, cBack]⟩
    rw [escChar, if_neg (by decide), if_neg (by decide), if_pos rfl]
  by_cases h4 : c = Char.ofNat 13
  · subst h4
    refine Or.inr ⟨['r'], ?_, fun rest => by simp [parseEsc, cQuote, cBack]⟩
    rw [escChar, if_neg (by decide), if_neg (by decide), if_neg (by decide), if_pos rfl]
  by_cases h5 : c = Char.ofNat 9
  · subst h5
    refine Or.inr ⟨['t'], ?_, fun rest => by simp [parseEsc, cQuote, cBack]⟩
    rw [escChar, if_neg (by decide), if_neg (by decide), if_neg (by decide),
      if_neg (by decide), if_pos rfl]
  by_cases h6 : c = Char.ofNat 8
  · subst h6
    refine Or.inr ⟨['b'], ?_, fun rest => by simp [parseEsc, cQuote, cBack]⟩
    rw [escChar, if_neg (by decide), if_neg (by decide), if_neg (by decide),
      if_neg (by decide), if_neg (by decide), if_pos rfl]
  by_cases h7 : c = Char.ofNat 12
  · subst h7
    refine Or.inr ⟨['f'], ?_, fun rest => by simp [parseEsc, cQuote, cBack]⟩
    rw [escChar, if_neg (by decide), if_neg (by decide), if_neg (by decide),
      if_neg (by decide), if_neg (by decide), if_neg (by decide), if_pos rfl]
  by_cases h8 : 32 ≤ c.toNat ∧ c.toNat ≤ 126
  · refine Or.inl ⟨?_, h1, h2, h8.1⟩
    rw [escChar, if_neg h1, if_neg h2, if_neg h3, if_neg h4, if_neg h5, if_neg h6, if_neg h7,
      if_pos (by simp [h8.1, h8.2])]
  by_cases h9 : c.toNat < 65536
  · refine Or.inr ⟨'u' :: hex4 c.toNat, ?_, fun rest => ?_⟩
    · rw [escChar, if_neg h1, if_neg h2, if_neg h3, if_neg h4, if_neg h5, if_neg h6, if_neg h7,
        if_neg (by simpa using fun hle => (not_and.mp h8 hle)), if_pos h9]
    · have hsur : ¬(55296 ≤ c.toNat ∧ c.toNat ≤ 57343) := by
        rcases char_toNat_valid c with h | h <;> omega
      rw [List.cons_append, parseEsc_u, parseEscU_bmp c.toNat rest h9 hsur, Char.ofNat_toNat]
  · have hval := char_toNat_valid c
    have hbig : 65536 ≤ c.toNat := by omega
    have hlt : c.toNat < 1114112 := by omega
    set n := c.toNat with hn
    have hhi : 55296 + (n - 65536) / 1024 ≤ 56319 := by
      have : (n - 65536) / 1024 < 1024 := Nat.div_lt_of_lt_mul (by omega)
      omega
    have hhibound : 55296 + (n - 65536) / 1024 < 65536 := by omega
    have hlo1 : 56320 ≤ 56320 + (n - 65536) % 1024 := by omega
    have hlo2 : 56320 + (n - 65536) % 1024 ≤ 57343 := by
      have : (n - 65536) % 1024 < 1024 := Nat.mod_lt _ (by norm_num)
      omega
    have hlobound : 56320 + (n - 65536) % 1024 < 65536 := by omega
    refine Or.inr ⟨'u' :: hex4 (55296 + (n - 65536) / 1024) ++
      cBack :: 'u' :: hex4 (56320 + (n - 65536) % 1024), ?_, fun rest => ?_⟩
    · rw [escChar, if_neg h1, if_neg h2, if_neg h3, if_neg h4, if_neg h5, if_neg h6, if_neg h7,
        if_neg (by simpa using fun hle => (not_and.mp h8 hle)), if_neg h9]
      simp
    · have harr : ('u' :: hex4 (55296 + (n - 65536) / 1024) ++
          cBack :: 'u' :: hex4 (56320 + (n - 65536) % 1024)) ++ rest =
          'u' :: (hex4 (55296 + (n - 65536) / 1024) ++
            (cBack :: 'u' :: (hex4 (56320 + (n - 65536) % 1024) ++ rest))) := by
        simp
      rw [harr, parseEsc_u,
        parseEscU_pair _ _ _ (by omega) hhi hlo1 hlo2]
      have hdm := Nat.div_add_mod (n - 65536) 1024
      have heq : 65536 + (55296 + (n - 65536) / 1024 - 55296) * 1024 +
          (56320 + (n - 65536) % 1024 - 56320) = n := by omega
      rw [heq, hn, Char.ofNat_toNat]

/-- Parse a JSON string body after its opening quote, consuming the closing
quote; fuel-bounded since an escape consumes several characters at once. -/
def parseStrGo : Nat → List Char → Option (List Char × List Char)
  | 0, _ => none
  | _ + 1, [] => none
  | fuel + 1, c :: r =>
    if c = cQuote then some ([], r)
    else if c = cBack then
      match parseEsc r with
      | none => none
      | some (ch, r2) =>
        match parseStrGo fuel r2 with
        | none => none
        | some p => some (ch :: p.1, p.2)
    else if 32 ≤ c.toNat then
      match parseStrGo fuel r with
      | none => none
      | some p => some (c :: p.1, p.2)
    else none

theorem parseStrGo_escStr : ∀ (cs : List Char) (fuel : Nat) (rest : List Char),
    cs.length < fuel → parseStrGo fuel (escStr cs ++ cQuote :: rest) = some (cs, rest) := by
  intro cs
  induction cs with
  | nil =>
    intro fuel rest hf
    match fuel, hf with
    | f + 1, _ => simp [escStr, parseStrGo]
  | cons c t ih =>
    intro fuel rest hf
    match fuel, hf with
    | f + 1, hf =>
      have hlen : t.length < f := by simp at hf; omega
      rcases escChar_cases c with ⟨he, hq, hb, h32⟩ | ⟨e, he, hp⟩
      · have harg : escStr (c :: t) ++ cQuote :: rest =
            c :: (escStr t ++ cQuote :: rest) := by
          rw [escStr, he]
          simp
        rw [harg, parseStrGo, if_neg hq, if_neg hb, if_pos h32, ih f rest hlen]
      · have harg : escStr (c :: t) ++ cQuote :: rest =
            cBack :: (e ++ (escStr t ++ cQuote :: rest)) := by
          rw [escStr, he]
          simp
        rw [harg, parseStrGo, if_neg (by decide), if_pos rfl,
          hp (escStr t ++ cQuote :: rest)]
        simp only [ih f rest hlen]

theorem escStr_length (cs : List Char) : cs.length ≤ (escStr cs).length := by
  induction cs with
  | nil => simp [escStr]
  | cons c t ih =>
    rw [escStr]
    have : escChar c ≠ [] := by
      rcases escChar_cases c with ⟨he, _, _, _⟩ | ⟨e, he, _⟩ <;> simp [he]
    have hpos : 0 < (escChar c).length := List.length_pos_of_ne_nil this
    simp only [List.length_append, List.length_cons]
    omega

/-! ### The JSON value type and the json.dumps / json.loads codec
(restricted to integer numbers; dumps uses the default Python separators) -/

/-- A JSON value as the Python json module handles it, with numbers
restricted to integers (the subset the program's schema payloads need). -/
inductive Json where
  | null
  | bool (b : Bool)
  | int (n : Int)
  | str (s : String)
  | arr (xs : List Json)
  | obj (kvs : List (String × Json))

/-- A JSON string literal with its quotes and escapes. -/
def dumpsStr (s : String) : List Char :=
  cQuote :: escStr s.data ++ [cQuote]

mutual

/-- json.dumps rendering (default separators: comma-space between items,
colon-space after keys, ensure_ascii escapes). -/
def dumpsL : Json → List Char
  | .null => 'n' :: 'u' :: ['l', 'l']
  | .bool true => 't' :: 'r' :: ['u', 'e']
  | .bool false => 'f' :: 'a' :: ['l', 's', 'e']
  | .int n => intReprL n
  | .str s => dumpsStr s
  | .arr xs => '[' :: dumpsItems xs ++ [']']
  | .obj kvs => cLBrace :: dumpsMembers kvs ++ [cRBrace]

/-- Comma-space separated array items. -/
def dumpsItems : List Json → List Char
  | [] => []
  | [x] => dumpsL x
  | x :: y :: r => dumpsL x ++ ',' :: ' ' :: dumpsItems (y :: r)

/-- Comma-space separated object members, each key colon-space value. -/
def dumpsMembers : List (String × Json) → List Char
  | [] => []
  | [(k, v)] => dumpsStr k ++ ':' :: ' ' :: dumpsL v
  | (k, v) :: m :: r => dumpsStr k ++ ':' :: ' ' :: dumpsL v ++ ',' :: ' ' :: dumpsMembers (m :: r)

end

/-- JSON whitespace. -/
def isWsC (c : Char) : Bool :=
  c = ' ' || c = Char.ofNat 9 || c = Char.ofNat 10 || c = Char.ofNat 13

/-- Drop leading JSON whitespace. -/
def skipWs : List Char → List Char
  | [] => []
  | c :: r => if isWsC c then skipWs r else c :: r

/-- True when a greedy number parse may stop here: end of input or a non-digit. -/
def numDelim (cs : List Char) : Bool :=
  match cs with
  | [] => true
  | c :: _ => !(isDigitC c)

mutual

/-- json.loads value parser (fuel-bounded recursion). -/
def parseVal : Nat → List Char → Option (Json × List Char)
  | 0, _ => none
  | fuel + 1, cs =>
    match skipWs cs with
    | 'n' :: 'u' :: 'l' :: 'l' :: r => some (.null, r)
    | 't' :: 'r' :: 'u' :: 'e' :: r => some (.bool true, r)
    | 'f' :: 'a' :: 'l' :: 's' :: 'e' :: r => some (.bool false, r)
    | c :: r =>
      if c = cQuote then
        match parseStrGo (r.length + 1) r with
        | none => none
        | some p => some (.str (String.mk p.1), p.2)
      else if c = '[' then
        match skipWs r with
        | c2 :: r2 =>
          if c2 = ']' then some (.arr [], r2)
          else
            (match parseItems fuel (c2 :: r2) with
             | none => none
             | some p => some (.arr p.1, p.2))
        | [] => none
      else if c = cLBrace then
        match skipWs r with
        | c2 :: r2 =>
          if c2 = cRBrace then some (.obj [], r2)
          else
            (match parseMembers fuel (c2 :: r2) with
             | none => none
             | some p => some (.obj p.1, p.2))
        | [] => none
      else if c = '-' || isDigitC c then
        match parseIntL (c :: r) with
        | none => none
        | some p => some (.int p.1, p.2)
      else none
    | [] => none

/-- One-or-more comma-separated array items, consuming the closing bracket. -/
def parseItems : Nat → List Char → Option (List Json × List Char)
  | 0, _ => none
  | fuel + 1, cs =>
    match parseVal fuel cs with
    | none => none
    | some (v, r) =>
      match skipWs r with
      | ',' :: r2 =>
        (match parseItems fuel (skipWs r2) with
         | none => none
         | some p => some (v :: p.1, p.2))
      | ']' :: r2 => some ([v], r2)
      | _ => none

/-- One-or-more comma-separated members, consuming the closing brace. -/
def parseMembers : Nat → List Char → Option (List (String × Json) × List Char)
  | 0, _ => none
  | fuel + 1, cs =>
    match skipWs cs with
    | c :: r =>
      if c = cQuote then
        match parseStrGo (r.length + 1) r with
        | none => none
        | some (kcs, r1) =>
          match skipWs r1 with
          | ':' :: r2 =>
            (match parseVal fuel (skipWs r2) with
             | none => none
             | some (v, r3) =>
               match skipWs r3 with
               | ',' :: r4 =>
                 (match parseMembers fuel (skipWs r4) with
                  | none => none
                  | some p => some ((String.mk kcs, v) :: p.1, p.2))
               | c5 :: r4 =>
                 if c5 = cRBrace then some ([(String.mk kcs, v)], r4) else none
               | [] => none)
          | _ => none
      else none
    | [] => none

end

/-- json.dumps of a value, as a string. -/
def jsonDumps (j : Json) : String := String.mk (dumpsL j)

/-- json.loads of a whole document. -/
def jsonLoads (s : String) : Option Json :=
  match parseVal (s.data.length + 1) s.data with
  | some (j, r) => if (skipWs r).isEmpty then some j else none
  | none => none

theorem digit_not_ws {c : Char} (h : isDigitC c = true) : isWsC c = false := by
  by_contra hws
  have hcw : isWsC c = true := by revert hws; cases isWsC c <;> simp
  rcases (by simpa [isWsC] using hcw :
      ((c = ' ' ∨ c = Char.ofNat 9) ∨ c = Char.ofNat 10) ∨ c = Char.ofNat 13) with
    ((h1 | h1) | h1) | h1 <;> (subst h1; exact absurd h (by decide))

theorem skipWs_cons_nws {c : Char} (r : List Char) (h : isWsC c = false) :
    skipWs (c :: r) = c :: r := by
  rw [skipWs, if_neg (by simp [h])]

/-- Every dumps rendering starts with a specific character that is neither
whitespace nor a closing bracket or brace. -/
theorem dumpsL_head (j : Json) :
    ∃ c t, dumpsL j = c :: t ∧ isWsC c = false ∧ ¬(c = ']') ∧ ¬(c = cRBrace) := by
  cases j with
  | null => exact ⟨'n', _, rfl, by decide, by decide, by decide⟩
  | bool b =>
    cases b with
    | false => exact ⟨'f', _, rfl, by decide, by decide, by decide⟩
    | true => exact ⟨'t', _, rfl, by decide, by decide, by decide⟩
  | int n =>
    by_cases h : n < 0
    · exact ⟨'-', _, by rw [dumpsL, intReprL, if_pos h], by decide, by decide, by decide⟩
    · obtain ⟨c, t, hct⟩ : ∃ c t, natRepr n.toNat = c :: t := by
        match hnr : natRepr n.toNat with
        | [] => exact absurd hnr (natRepr_ne_nil _)
        | c :: t => exact ⟨c, t, rfl⟩
      have hdig := natRepr_all_digits n.toNat c (by rw [hct]; simp)
      refine ⟨c, t, by rw [dumpsL, intReprL, if_neg h, hct], digit_not_ws hdig, ?_, ?_⟩ <;>
        (intro he; subst he; exact absurd hdig (by decide))
  | str s =>
    exact ⟨cQuote, escStr s.data ++ [cQuote], by rw [dumpsL, dumpsStr]; simp,
      by decide, by decide, by decide⟩
  | arr xs => exact ⟨'[', _, rfl, by decide, by decide, by decide⟩
  | obj kvs => exact ⟨cLBrace, _, rfl, by decide, by decide, by decide⟩

theorem skipWs_dumpsL (j : Json) (x : List Char) :
    skipWs (dumpsL j ++ x) = dumpsL j ++ x := by
  obtain ⟨c, t, hct, hws, _, _⟩ := dumpsL_head j
  rw [hct, List.cons_append, skipWs_cons_nws _ hws]

/-- dumpsItems of a nonempty list starts with the rendering of its head. -/
theorem dumpsItems_cons_decomp (x : Json) (xs : List Json) :
    ∃ t, dumpsItems (x :: xs) = dumpsL x ++ t := by
  cases xs with
  | nil => exact ⟨[], by simp [dumpsItems]⟩
  | cons y r => exact ⟨',' :: ' ' :: dumpsItems (y :: r), by rw [dumpsItems]⟩

theorem skipWs_dumpsItems (x : Json) (xs : List Json) (w : List Char) :
    skipWs (dumpsItems (x :: xs) ++ w) = dumpsItems (x :: xs) ++ w := by
  obtain ⟨t, ht⟩ := dumpsItems_cons_decomp x xs
  rw [ht, List.append_assoc, skipWs_dumpsL, ← List.append_assoc]

/-- dumpsMembers of a nonempty list starts with the quoted key. -/
theorem dumpsMembers_cons_decomp (k : String) (v : Json) (ms : List (String × Json)) :
    ∃ t, dumpsMembers ((k, v) :: ms) = cQuote :: (escStr k.data ++ cQuote :: t) := by
  cases ms with
  | nil =>
    refine ⟨':' :: ' ' :: dumpsL v, ?_⟩
    rw [dumpsMembers, dumpsStr]
    simp
  | cons m r =>
    refine ⟨':' :: ' ' :: (dumpsL v ++ ',' :: ' ' :: dumpsMembers (m :: r)), ?_⟩
    rw [dumpsMembers, dumpsStr]
    simp

theorem skipWs_dumpsMembers (k : String) (v : Json) (ms : List (String × Json)) (w : List Char) :
    skipWs (dumpsMembers ((k, v) :: ms) ++ w) = dumpsMembers ((k, v) :: ms) ++ w := by
  obtain ⟨t, ht⟩ := dumpsMembers_cons_decomp k v ms
  rw [ht, List.cons_append, skipWs_cons_nws _ (by decide)]

theorem noDigitHead_of_numDelim {cs : List Char} (h : numDelim cs = true) : noDigitHead cs := by
  intro c hc
  match cs, hc with
  | c' :: t, hc =>
    have : c' = c := by simpa using hc
    subst this
    simpa [numDelim] using h

/-- On inputs headed by a minus sign or a digit, parseVal dispatches to the
integer branch. -/
theorem parseVal_int_head (f : Nat) (c : Char) (t : List Char)
    (hc : c = '-' ∨ isDigitC c = true) :
    parseVal (f + 1) (c :: t) =
      (match parseIntL (c :: t) with
       | none => none
       | some p => some (.int p.1, p.2)) := by
  rcases hc with h | h
  · subst h
    rfl
  · obtain ⟨m, hm1, hm2, rfl⟩ : ∃ m, 48 ≤ m ∧ m ≤ 57 ∧ c = Char.ofNat m := by
      have hb : 48 ≤ c.toNat ∧ c.toNat ≤ 57 := by simpa [isDigitC] using h
      exact ⟨c.toNat, hb.1, hb.2, (Char.ofNat_toNat c).symm⟩
    interval_cases m <;> rfl

theorem numDelim_cons (c : Char) (t : List Char) (h : isDigitC c = false) :
    numDelim (c :: t) = true := by
  simp [numDelim, h]

theorem skipWs_cons_sp (r : List Char) : skipWs (' ' :: r) = skipWs r := by
  rw [skipWs, if_pos (by decide)]

theorem parseVal_quote (f : Nat) (x : List Char) :
    parseVal (f + 1) (cQuote :: x) =
      (match parseStrGo (x.length + 1) x with
       | none => none
       | some p => some (.str (String.mk p.1), p.2)) := rfl

theorem parseVal_lbrack (f : Nat) (c : Char) (r : List Char)
    (hws : isWsC c = false) (hne : ¬(c = ']')) :
    parseVal (f + 1) ('[' :: (c :: r)) =
      (match parseItems f (c :: r) with
       | none => none
       | some p => some (.arr p.1, p.2)) := by
  show (match skipWs (c :: r) with
       | c2 :: r2 =>
         if c2 = ']' then some (Json.arr [], r2)
         else (match parseItems f (c2 :: r2) with
               | none => none
               | some p => some (Json.arr p.1, p.2))
       | [] => none) = _
  rw [skipWs_cons_nws _ hws]
  show (if c = ']' then some (Json.arr [], r)
        else (match parseItems f (c :: r) with
              | none => none
              | some p => some (Json.arr p.1, p.2))) = _
  rw [if_neg hne]

theorem parseVal_lbrace (f : Nat) (c : Char) (r : List Char)
    (hws : isWsC c = false) (hne : ¬(c = cRBrace)) :
    parseVal (f + 1) (cLBrace :: (c :: r)) =
      (match parseMembers f (c :: r) with
       | none => none
       | some p => some (.obj p.1, p.2)) := by
  show (match skipWs (c :: r) with
       | c2 :: r2 =>
         if c2 = cRBrace then some (Json.obj [], r2)
         else (match parseMembers f (c2 :: r2) with
               | none => none
               | some p => some (Json.obj p.1, p.2))
       | [] => none) = _
  rw [skipWs_cons_nws _ hws]
  show (if c = cRBrace then some (Json.obj [], r)
        else (match parseMembers f (c :: r) with
              | none => none
              | some p => some (Json.obj p.1, p.2))) = _
  rw [if_neg hne]

theorem parseItems_succ (f : Nat) (cs : List Char) :
    parseItems (f + 1) cs =
      (match parseVal f cs with
       | none => none
       | some (v, r) =>
         match skipWs r with
         | ',' :: r2 =>
           (match parseItems f (skipWs r2) with
            | none => none
            | some p => some (v :: p.1, p.2))
         | ']' :: r2 => some ([v], r2)
         | _ => none) := rfl

theorem parseMembers_succ (f : Nat) (cs : List Char) :
    parseMembers (f + 1) cs =
      (match skipWs cs with
       | c :: r =>
         if c = cQuote then
           match parseStrGo (r.length + 1) r with
           | none => none
           | some (kcs, r1) =>
             match skipWs r1 with
             | ':' :: r2 =>
               (match parseVal f (skipWs r2) with
                | none => none
                | some (v, r3) =>
                  match skipWs r3 with
                  | ',' :: r4 =>
                    (match parseMembers f (skipWs r4) with
                     | none => none
                     | some p => some ((String.mk kcs, v) :: p.1, p.2))
                  | c5 :: r4 =>
                    if c5 = cRBrace then some ([(String.mk kcs, v)], r4) else none
                  | [] => none)
             | _ => none
         else none
       | [] => none) := rfl

mutual

theorem rtVal : ∀ (j : Json) (fuel : Nat) (rest : List Char),
    (dumpsL j).length < fuel → numDelim rest = true →
    parseVal fuel (dumpsL j ++ rest) = some (j, rest)
  | .null, fuel, rest, hf, _ => by
    match fuel, hf with
    | f + 1, _ => rfl
  | .bool true, fuel, rest, hf, _ => by
    match fuel, hf with
    | f + 1, _ => rfl
  | .bool false, fuel, rest, hf, _ => by
    match fuel, hf with
    | f + 1, _ => rfl
  | .int n, fuel, rest, hf, hr => by
    match fuel, hf with
    | f + 1, hf =>
      obtain ⟨c, t, hct, hc⟩ : ∃ c t, intReprL n = c :: t ∧ (c = '-' ∨ isDigitC c = true) := by
        by_cases h : n < 0
        · exact ⟨'-', _, by rw [intReprL, if_pos h], Or.inl rfl⟩
        · obtain ⟨c, t, hct⟩ : ∃ c t, natRepr n.toNat = c :: t := by
            match hnr : natRepr n.toNat with
            | [] => exact absurd hnr (natRepr_ne_nil _)
            | c :: t => exact ⟨c, t, rfl⟩
          exact ⟨c, t, by rw [intReprL, if_neg h, hct],
            Or.inr (natRepr_all_digits n.toNat c (by rw [hct]; simp))⟩
      have hp := parseIntL_intReprL n rest (noDigitHead_of_numDelim hr)
      rw [hct, List.cons_append] at hp
      have harg : dumpsL (.int n) ++ rest = c :: (t ++ rest) := by
        rw [dumpsL, hct, List.cons_append]
      rw [harg, parseVal_int_head f c (t ++ rest) hc, hp]
  | .str s, fuel, rest, hf, _ => by
    match fuel, hf with
    | f + 1, hf =>
      have harg : dumpsL (.str s) ++ rest = cQuote :: (escStr s.data ++ cQuote :: rest) := by
        rw [dumpsL, dumpsStr]
        simp
      have hlen : s.data.length < (escStr s.data ++ cQuote :: rest).length + 1 := by
        have := escStr_length s.data
        simp only [List.length_append, List.length_cons]
        omega
      rw [harg, parseVal_quote, parseStrGo_escStr s.data _ rest hlen]
  | .arr [], fuel, rest, hf, _ => by
    match fuel, hf with
    | f + 1, _ => rfl
  | .arr (x :: xs), fuel, rest, hf, _ => by
    match fuel, hf with
    | f + 1, hf =>
      have hfi : (dumpsItems (x :: xs)).length + 1 < f := by
        rw [dumpsL] at hf
        simp only [List.length_append, List.length_cons] at hf
        omega
      have key := rtItems x xs f rest hfi
      obtain ⟨t, ht⟩ := dumpsItems_cons_decomp x xs
      obtain ⟨c, t', hct, hws, hne, _⟩ := dumpsL_head x
      have hX : dumpsItems (x :: xs) ++ ']' :: rest = c :: (t' ++ (t ++ ']' :: rest)) := by
        rw [ht, hct]
        simp
      have harg : dumpsL (.arr (x :: xs)) ++ rest =
          '[' :: (c :: (t' ++ (t ++ ']' :: rest))) := by
        rw [dumpsL, ← hX]
        simp
      rw [harg, parseVal_lbrack f c _ hws hne, ← hX, key]
  | .obj [], fuel, rest, hf, _ => by
    match fuel, hf with
    | f + 1, _ => rfl
  | .obj ((k, v) :: ms), fuel, rest, hf, _ => by
    match fuel, hf with
    | f + 1, hf =>
      have hfi : (dumpsMembers ((k, v) :: ms)).length + 1 < f := by
        rw [dumpsL] at hf
        simp only [List.length_append, List.length_cons] at hf
        omega
      have key := rtMembers k v ms f rest hfi
      obtain ⟨t, ht⟩ := dumpsMembers_cons_decomp k v ms
      have hX : dumpsMembers ((k, v) :: ms) ++ cRBrace :: rest =
          cQuote :: (escStr k.data ++ cQuote :: (t ++ cRBrace :: rest)) := by
        rw [ht]
        simp
      have harg : dumpsL (.obj ((k, v) :: ms)) ++ rest =
          cLBrace :: (cQuote :: (escStr k.data ++ cQuote :: (t ++ cRBrace :: rest))) := by
        rw [dumpsL, ← hX]
        simp
      rw [harg, parseVal_lbrace f cQuote _ (by decide) (by decide), ← hX, key]
  termination_by j _ _ _ _ => sizeOf j

theorem rtItems : ∀ (x : Json) (xs : List Json) (fuel : Nat) (rest : List Char),
    (dumpsItems (x :: xs)).length + 1 < fuel →
    parseItems fuel (dumpsItems (x :: xs) ++ ']' :: rest) = some (x :: xs, rest)
  | x, [], fuel, rest, hf => by
    match fuel, hf with
    | f + 1, hf =>
      have hfx : (dumpsL x).length < f := by
        rw [dumpsItems] at hf
        omega
      have hv := rtVal x f (']' :: rest) hfx (numDelim_cons _ _ (by decide))
      have harg : dumpsItems [x] ++ ']' :: rest = dumpsL x ++ ']' :: rest := by
        rw [dumpsItems]
      rw [harg, parseItems_succ, hv]
      rfl
  | x, y :: ys, fuel, rest, hf => by
    match fuel, hf with
    | f + 1, hf =>
      have hlens : (dumpsItems (x :: y :: ys)).length =
          (dumpsL x).length + 2 + (dumpsItems (y :: ys)).length := by
        rw [dumpsItems]
        simp only [List.length_append, List.length_cons]
        omega
      have hfx : (dumpsL x).length < f := by omega
      have hfr : (dumpsItems (y :: ys)).length + 1 < f := by omega
      have hv := rtVal x f (',' :: ' ' :: (dumpsItems (y :: ys) ++ ']' :: rest)) hfx
        (numDelim_cons _ _ (by decide))
      have key := rtItems y ys f rest hfr
      have harg : dumpsItems (x :: y :: ys) ++ ']' :: rest =
          dumpsL x ++ (',' :: ' ' :: (dumpsItems (y :: ys) ++ ']' :: rest)) := by
        rw [dumpsItems]
        simp
      rw [harg, parseItems_succ, hv]
      simp only [skipWs_cons_nws _ (by decide : isWsC ',' = false), skipWs_cons_sp,
        skipWs_dumpsItems, key]
  termination_by x xs _ _ _ => sizeOf x + sizeOf xs

theorem rtMembers : ∀ (k : String) (v : Json) (ms : List (String × Json))
    (fuel : Nat) (rest : List Char),
    (dumpsMembers ((k, v) :: ms)).length + 1 < fuel →
    parseMembers fuel (dumpsMembers ((k, v) :: ms) ++ cRBrace :: rest) =
      some ((k, v) :: ms, rest)
  | k, v, [], fuel, rest, hf => by
    match fuel, hf with
    | f + 1, hf =>
      have hlens : (dumpsMembers [(k, v)]).length =
          (dumpsStr k).length + 2 + (dumpsL v).length := by
        rw [dumpsMembers]
        simp only [List.length_append, List.length_cons]
        omega
      have hfv : (dumpsL v).length < f := by omega
      have hv := rtVal v f (cRBrace :: rest) hfv (numDelim_cons _ _ (by decide))
      have harg : dumpsMembers [(k, v)] ++ cRBrace :: rest =
          cQuote :: (escStr k.data ++ cQuote ::
            (':' :: ' ' :: (dumpsL v ++ cRBrace :: rest))) := by
        rw [dumpsMembers, dumpsStr]
        simp
      have hklen : k.data.length <
          (escStr k.data ++ cQuote :: (':' :: ' ' :: (dumpsL v ++ cRBrace :: rest))).length + 1 := by
        have := escStr_length k.data
        simp only [List.length_append, List.length_cons]
        omega
      rw [harg, parseMembers_succ, skipWs_cons_nws _ (by decide : isWsC cQuote = false)]
      show (if cQuote = cQuote then _ else none) = _
      rw [if_pos rfl, parseStrGo_escStr k.data _ _ hklen]
      simp only [skipWs_cons_nws _ (by decide : isWsC ':' = false), skipWs_cons_sp,
        skipWs_dumpsL, hv, skipWs_cons_nws _ (by decide : isWsC cRBrace = false)]
      rfl
  | k, v, (k2, v2) :: mr, fuel, rest, hf => by
    match fuel, hf with
    | f + 1, hf =>
      have hlens : (dumpsMembers ((k, v) :: (k2, v2) :: mr)).length =
          (dumpsStr k).length + 2 + (dumpsL v).length + 2 +
            (dumpsMembers ((k2, v2) :: mr)).length := by
        rw [dumpsMembers]
        simp only [List.length_append, List.length_cons]
        omega
      have hfv : (dumpsL v).length < f := by omega
      have hfr : (dumpsMembers ((k2, v2) :: mr)).length + 1 < f := by omega
      have hv := rtVal v f
        (',' :: ' ' :: (dumpsMembers ((k2, v2) :: mr) ++ cRBrace :: rest)) hfv
        (numDelim_cons _ _ (by decide))
      have key := rtMembers k2 v2 mr f rest hfr
      have harg : dumpsMembers ((k, v) :: (k2, v2) :: mr) ++ cRBrace :: rest =
          cQuote :: (escStr k.data ++ cQuote ::
            (':' :: ' ' :: (dumpsL v ++
              ',' :: ' ' :: (dumpsMembers ((k2, v2) :: mr) ++ cRBrace :: rest)))) := by
        rw [dumpsMembers, dumpsStr]
        simp
      have hklen : k.data.length <
          (escStr k.data ++ cQuote :: (':' :: ' ' :: (dumpsL v ++
            ',' :: ' ' :: (dumpsMembers ((k2, v2) :: mr) ++ cRBrace :: rest)))).length + 1 := by
        have := escStr_length k.data
        simp only [List.length_append, List.length_cons]
        omega
      rw [harg, parseMembers_succ, skipWs_cons_nws _ (by decide : isWsC cQuote = false)]
      show (if cQuote = cQuote then _ else none) = _
      rw [if_pos rfl, parseStrGo_escStr k.data _ _ hklen]
      have hm : skipWs (dumpsMembers ((k2, v2) :: mr) ++ cRBrace :: rest) =
          dumpsMembers ((k2, v2) :: mr) ++ cRBrace :: rest :=
        skipWs_dumpsMembers k2 v2 mr _
      simp only [skipWs_cons_nws _ (by decide : isWsC ':' = false), skipWs_cons_sp,
        skipWs_dumpsL, hv, skipWs_cons_nws _ (by decide : isWsC ',' = false), hm, key]
  termination_by _ v ms _ _ _ => sizeOf v + sizeOf ms

end

/-- json.loads inverts json.dumps on every modelled JSON value. -/
theorem jsonLoads_jsonDumps (j : Json) : jsonLoads (jsonDumps j) = some j := by
  have hv := rtVal j ((dumpsL j).length + 1) [] (by omega) rfl
  simp only [List.append_nil] at hv
  simp [jsonLoads, jsonDumps, hv, skipWs]

/-! ### Job model: JobStatus enum and the ProjectJob dataclass -/

/-- The JobStatus enum. -/
inductive JobStatus where
  | queued
  | processing
  | completed
  | failed
  | cancelled
deriving DecidableEq

/-- The enum's string value. -/
def JobStatus.value : JobStatus → String
  | .queued => "queued"
  | .processing => "processing"
  | .completed => "completed"
  | .failed => "failed"
  | .cancelled => "cancelled"

/-- JobStatus(raw) construction from a string value. -/
def statusOfString (s : String) : Option JobStatus :=
  if s = "queued" then some .queued
  else if s = "processing" then some .processing
  else if s = "completed" then some .completed
  else if s = "failed" then some .failed
  else if s = "cancelled" then some .cancelled
  else none

theorem statusOfString_value (st : JobStatus) : statusOfString st.value = some st := by
  cases st <;> rfl

/-- The ProjectJob dataclass, fields in declaration order. -/
structure ProjectJob where
  job_id : String
  user_id : String
  tier : String
  project_schema : Json
  status : JobStatus
  priority : Int
  created_at : DT
  started_at : Option DT := none
  completed_at : Option DT := none
  error_message : Option String := none
  result_url : Option String := none
  queue_position : Option Int := none
  estimated_start : Option DT := none
  worker_id : Option String := none

/-! ### The job codec: QueueManager._serialize_job / _deserialize_job -/

/-- Python str applied to an Optional string (None prints as "None"). -/
def optStrPy : Option String → String
  | none => "None"
  | some s => s

/-- The serialized form of an optional datetime: isoformat or empty. -/
def optIso : Option DT → String
  | none => ""
  | some d => isoString d

/-- Python str of an Optional int. -/
def optIntPy : Option Int → String
  | none => "None"
  | some n => String.mk (intReprL n)

/-- Python str of an Optional datetime (space-separated rendering). -/
def optStrDT : Option DT → String
  | none => "None"
  | some d => String.mk (strDTL d)

/-- QueueManager._serialize_job: asdict in field order, status replaced by its
value, datetimes by isoformat (empty string for missing), the schema by its
json.dumps, and every value passed through str. -/
def serialize_job (j : ProjectJob) : List (String × String) :=
  [("job_id", j.job_id),
   ("user_id", j.user_id),
   ("tier", j.tier),
   ("project_schema", jsonDumps j.project_schema),
   ("status", j.status.value),
   ("priority", String.mk (intReprL j.priority)),
   ("created_at", isoString j.created_at),
   ("started_at", optIso j.started_at),
   ("completed_at", optIso j.completed_at),
   ("error_message", optStrPy j.error_message),
   ("result_url", optStrPy j.result_url),
   ("queue_position", optIntPy j.queue_position),
   ("estimated_start", optStrDT j.estimated_start),
   ("worker_id", optStrPy j.worker_id)]

/-- First-match association-list lookup (Python dict read). -/
def lookupA {α : Type} : List (String × α) → String → Option α
  | [], _ => none
  | (k2, v) :: r, k => if k2 = k then some v else lookupA r k

/-- The truthiness test data.get(key) guarding fromisoformat: None and the
empty string both mean absent. -/
def optField : Option String → Option (Option DT)
  | none => some none
  | some s => if s = "" then some none else (fromisoString s).map some

/-- QueueManager._deserialize_job. -/
def deserialize_job (data : List (String × String)) : Option ProjectJob := do
  let jid ← lookupA data "job_id"
  let uid ← lookupA data "user_id"
  let tierv ← lookupA data "tier"
  let psRaw ← lookupA data "project_schema"
  let ps ← jsonLoads psRaw
  let stRaw ← lookupA data "status"
  let st ← statusOfString stRaw
  let prRaw ← lookupA data "priority"
  let pr ← parseIntString prRaw
  let caRaw ← lookupA data "created_at"
  let ca ← fromisoString caRaw
  let sa ← optField (lookupA data "started_at")
  let coA ← optField (lookupA data "completed_at")
  some { job_id := jid, user_id := uid, tier := tierv, project_schema := ps,
         status := st, priority := pr, created_at := ca, started_at := sa,
         completed_at := coA,
         error_message := lookupA data "error_message",
         result_url := lookupA data "result_url",
         queue_position := none, estimated_start := none,
         worker_id := lookupA data "worker_id" }

/-- Well-formedness of an optional datetime. -/
def optWfDT : Option DT → Prop
  | none => True
  | some d => d.wf

instance (o : Option DT) : Decidable (optWfDT o) := by
  cases o <;> (unfold optWfDT; infer_instance)

/-- Datetime well-formedness of a job's timestamp fields. -/
def ProjectJob.wf (j : ProjectJob) : Prop :=
  j.created_at.wf ∧ optWfDT j.started_at ∧ optWfDT j.completed_at

instance (j : ProjectJob) : Decidable j.wf := by
  unfold ProjectJob.wf
  infer_instance

/-- What one serialize/deserialize pass does to a job: position fields reset
to None, and the str() of the three Optional string fields survives, so None
becomes the string "None". -/
def jCanon (j : ProjectJob) : ProjectJob :=
  { j with error_message := some (optStrPy j.error_message),
           result_url := some (optStrPy j.result_url),
           worker_id := some (optStrPy j.worker_id),
           queue_position := none,
           estimated_start := none }

theorem padNum_length (k n : Nat) : (padNum k n).length = k := by
  induction k generalizing n with
  | zero => simp [padNum]
  | succ k ih => simp [padNum, ih]

theorem isoString_ne_empty (d : DT) : ¬(isoString d = "") := by
  intro h
  have hdata : isoL d = [] := congrArg String.data h
  have : (isoL d).length = 0 := by rw [hdata]; rfl
  rw [isoL, isoSepL] at this
  simp only [List.length_append, List.length_cons, padNum_length] at this
  omega

/-- Master codec round trip: deserializing a serialized job yields the
canonicalized job, whenever the timestamps have the bounds every Python
datetime satisfies. -/
theorem deserialize_serialize (j : ProjectJob) (hwf : j.wf) :
    deserialize_job (serialize_job j) = some (jCanon j) := by
  obtain ⟨h1, h2, h3⟩ := hwf
  have hsa : optField (some (optIso j.started_at)) = some j.started_at := by
    match hs : j.started_at with
    | none => rfl
    | some d =>
      have hd : d.wf := by rw [hs] at h2; exact h2
      simp [optIso, optField, isoString_ne_empty d, fromisoString_isoString d hd]
  have hca : optField (some (optIso j.completed_at)) = some j.completed_at := by
    match hs : j.completed_at with
    | none => rfl
    | some d =>
      have hd : d.wf := by rw [hs] at h3; exact h3
      simp [optIso, optField, isoString_ne_empty d, fromisoString_isoString d hd]
  simp only [deserialize_job, serialize_job, lookupA]
  simp [jsonLoads_jsonDumps, statusOfString_value, parseIntString_intReprL,
    fromisoString_isoString _ h1, hsa, hca, jCanon]

/-! ### The Redis store, shallowly embedded

Each key the program uses becomes a component: the pending sorted set, the
processing list, the completed/failed rings, the job hashes and the monthly
counters.  Line 103 reads the pending queue's size with llen, but the
pending key is written only by zadd (line 116), so whenever the set is
nonempty the key holds a sorted set and Redis answers LLEN with a WRONGTYPE
error that redis-py raises and submit_job does not catch; only when the set
is empty (Redis deletes empty sorted sets, so the key is absent) does llen
report 0.  Every mutating call appends an event to a write log, so claims
about write ordering are statable. -/

/-- QueueConfig constants. -/
def QUEUE_PENDING : String := "projects:pending"

def QUEUE_PROCESSING : String := "projects:processing"

def QUEUE_COMPLETED : String := "projects:completed"

def QUEUE_FAILED : String := "projects:failed"

def MAX_CONCURRENT_JOBS : Nat := 3

def MAX_QUEUE_SIZE : Nat := 1000

def JOB_TIMEOUT_SECONDS : Nat := 3600

def POSITION_ESTIMATE_SECONDS : Nat := 600

/-- A logged store mutation. -/
inductive Ev where
  | zadd (key member : String) (score : ℚ)
  | zrem (key member : String)
  | hset (key : String) (fields : List (String × String))
  | incr (key : String)
  | expireE (key : String) (seconds : Nat)
  | lpush (key value : String)
  | lrem (key : String) (count : Int) (value : String)
  | setex (key : String) (seconds : Nat) (value : String)
deriving DecidableEq

/-- The shared store state. -/
structure Store where
  pending : List (String × ℚ) := []
  processing : List String := []
  completed : List String := []
  failed : List String := []
  hashes : List (String × List (String × String)) := []
  counters : List (String × Int) := []
  log : List Ev := []
deriving DecidableEq

/-- Association-list update: replace the value at a key, or append. -/
def setA {α : Type} (l : List (String × α)) (k : String) (v : α) : List (String × α) :=
  if l.any (fun p => p.1 = k) then l.map (fun p => if p.1 = k then (k, v) else p)
  else l ++ [(k, v)]

/-- Redis ZADD on a member list: update the member's score or insert it. -/
def zaddL (l : List (String × ℚ)) (m : String) (sc : ℚ) : List (String × ℚ) :=
  if l.any (fun p => p.1 = m) then l.map (fun p => if p.1 = m then (m, sc) else p)
  else l ++ [(m, sc)]

/-- Redis ZREM. -/
def zremL (l : List (String × ℚ)) (m : String) : List (String × ℚ) :=
  l.filter (fun p => ¬(p.1 = m))

/-- The smaller of two sorted-set entries in Redis order (score, then member). -/
def zminP (a b : String × ℚ) : String × ℚ :=
  if a.2 < b.2 ∨ (a.2 = b.2 ∧ a.1 < b.1) then a else b

/-- ZRANGE key 0 0: the entry with the least (score, member). -/
def zmin : List (String × ℚ) → Option (String × ℚ)
  | [] => none
  | p :: r =>
    match zmin r with
    | none => some p
    | some q => some (zminP p q)

theorem zmin_none : ∀ (l : List (String × ℚ)), zmin l = none → l = []
  | [], _ => rfl
  | a :: r, h => by
    rw [zmin] at h
    match hr : zmin r with
    | none => rw [hr] at h; simp at h
    | some q => rw [hr] at h; simp at h

theorem zmin_mem : ∀ (l : List (String × ℚ)) (p : String × ℚ), zmin l = some p → p ∈ l
  | [], p, h => by simp [zmin] at h
  | a :: r, p, h => by
    rw [zmin] at h
    match hr : zmin r with
    | none =>
      rw [hr] at h
      simp only [Option.some.injEq] at h
      subst h
      exact List.mem_cons_self a r
    | some q =>
      rw [hr] at h
      simp only [Option.some.injEq] at h
      rw [zminP] at h
      by_cases hc : a.2 < q.2 ∨ (a.2 = q.2 ∧ a.1 < q.1)
      · rw [if_pos hc] at h
        subst h
        exact List.mem_cons_self a r
      · rw [if_neg hc] at h
        subst h
        exact List.mem_cons_of_mem a (zmin_mem r q hr)

theorem zmin_le : ∀ (l : List (String × ℚ)) (p : String × ℚ), zmin l = some p →
    ∀ q ∈ l, p.2 ≤ q.2
  | [], p, h => by simp [zmin] at h
  | a :: r, p, h => by
    rw [zmin] at h
    match hr : zmin r with
    | none =>
      have hre : r = [] := zmin_none r hr
      rw [hr] at h
      simp only [Option.some.injEq] at h
      subst h
      subst hre
      intro q hq
      simp at hq
      subst hq
      exact le_refl _
    | some m =>
      rw [hr] at h
      simp only [Option.some.injEq] at h
      subst h
      intro q hq
      have hmle := zmin_le r m hr
      rcases List.mem_cons.mp hq with hqa | hqr
      · subst hqa
        rw [zminP]
        by_cases hc : q.2 < m.2 ∨ (q.2 = m.2 ∧ q.1 < m.1)
        · rw [if_pos hc]
        · rw [if_neg hc]
          push_neg at hc
          exact hc.1
      · have hq2 := hmle q hqr
        rw [zminP]
        by_cases hc : a.2 < m.2 ∨ (a.2 = m.2 ∧ a.1 < m.1)
        · rw [if_pos hc]
          rcases hc with hlt | ⟨heq, _⟩
          · exact le_of_lt (lt_of_lt_of_le hlt hq2)
          · rw [heq]
            exact hq2
        · rw [if_neg hc]
          exact hq2

/-- ZRANK: the number of entries strictly before the member in Redis order. -/
def zrankL (l : List (String × ℚ)) (m : String) : Option Nat :=
  match l.find? (fun p => p.1 == m) with
  | none => none
  | some p => some (l.countP (fun q => decide (q.2 < p.2 ∨ (q.2 = p.2 ∧ q.1 < p.1))))

/-- LREM with count 0 removes every occurrence. -/
def lremAll (l : List String) (v : String) : List String :=
  l.filter (fun s => ¬(s = v))

/-- Store primitives, each appending its write event. -/
def Store.zadd (s : Store) (m : String) (sc : ℚ) : Store :=
  { s with pending := zaddL s.pending m sc, log := s.log ++ [.zadd QUEUE_PENDING m sc] }

def Store.zremPending (s : Store) (m : String) : Store :=
  { s with pending := zremL s.pending m, log := s.log ++ [.zrem QUEUE_PENDING m] }

def Store.lpushProcessing (s : Store) (v : String) : Store :=
  { s with processing := v :: s.processing, log := s.log ++ [.lpush QUEUE_PROCESSING v] }

def Store.lpushCompleted (s : Store) (v : String) : Store :=
  { s with completed := v :: s.completed, log := s.log ++ [.lpush QUEUE_COMPLETED v] }

def Store.lpushFailed (s : Store) (v : String) : Store :=
  { s with failed := v :: s.failed, log := s.log ++ [.lpush QUEUE_FAILED v] }

def Store.lremProcessing (s : Store) (v : String) : Store :=
  { s with processing := lremAll s.processing v,
           log := s.log ++ [.lrem QUEUE_PROCESSING 0 v] }

/-- HSET with a mapping updates the named fields, keeping any others. -/
def hashSet (h : List (String × String)) (kvs : List (String × String)) :
    List (String × String) :=
  kvs.foldl (fun acc kv => setA acc kv.1 kv.2) h

def Store.hset (s : Store) (k : String) (kvs : List (String × String)) : Store :=
  { s with hashes := (match lookupA s.hashes k with
                      | some old => setA s.hashes k (hashSet old kvs)
                      | none => s.hashes ++ [(k, kvs)]),
           log := s.log ++ [.hset k kvs] }

/-- HGETALL returns the empty mapping for a missing key. -/
def Store.hgetall (s : Store) (k : String) : List (String × String) :=
  (lookupA s.hashes k).getD []

def Store.incr (s : Store) (k : String) : Store :=
  { s with counters := (match lookupA s.counters k with
                        | some v => setA s.counters k (v + 1)
                        | none => s.counters ++ [(k, 1)]),
           log := s.log ++ [.incr k] }

def Store.expire (s : Store) (k : String) (secs : Nat) : Store :=
  { s with log := s.log ++ [.expireE k secs] }

def Store.setex (s : Store) (k : String) (secs : Nat) (v : String) : Store :=
  { s with log := s.log ++ [.setex k secs v] }

/-- GET of a counter, with int(... or 0) defaulting. -/
def getCounter (s : Store) (k : String) : Int :=
  (lookupA s.counters k).getD 0

/-! ### Tier limits and admission -/

/-- One TierLimits enum entry. -/
structure TierLim where
  concurrent : Int
  queue_priority : Int
  monthly_limit : Int
deriving DecidableEq

/-- Python str.upper on the ASCII tier names. -/
def strUpper (s : String) : String := String.mk (s.data.map Char.toUpper)

/-- TierLimits[name] for upper-cased names; None models the KeyError. -/
def tierLimits (name : String) : Option TierLim :=
  if name = "FREE" then some ⟨1, 3, 1⟩
  else if name = "INDIE" then some ⟨2, 2, 10⟩
  else if name = "PRO" then some ⟨3, 1, -1⟩
  else if name = "ENTERPRISE" then some ⟨5, 0, -1⟩
  else none

/-- The user:{user}:jobs:{YYYY-MM} counter key. -/
def monthKey (user_id : String) (now : DT) : String :=
  "user:" ++ user_id ++ ":jobs:" ++
    String.mk (padNum 4 now.year) ++ "-" ++ String.mk (padNum 2 now.month)

/-- QueueManager._check_user_limit; none models the KeyError on unknown tier. -/
def check_user_limit (s : Store) (user_id tier : String) (now : DT) : Option Bool :=
  match tierLimits (strUpper tier) with
  | none => none
  | some lim =>
    if lim.monthly_limit = -1 then some true
    else some (decide (getCounter s (monthKey user_id now) < lim.monthly_limit))

/-! ### QueueManager operations -/

/-- The enqueue score: priority * 1000000 + time.time(). -/
def scoreOf (priority : Int) (t : ℚ) : ℚ := (priority : ℚ) * 1000000 + t

/-- A start estimate: datetime.now() plus a minute offset (the timedelta
addition is kept symbolic as base time plus minutes; no claim depends on
calendar normalization). -/
structure EstStart where
  base : DT
  minutes : ℚ
deriving DecidableEq

/-- The dict submit_job returns. -/
structure SubmitResult where
  job_id : String
  status : String
  queue_position : Int
  estimated_start : EstStart
  estimated_wait_minutes : Int
deriving DecidableEq

/-- QueueManager._get_queue_position: zrank + 1, or 0 when absent. -/
def queuePositionOf (s : Store) (job_id : String) : Int :=
  match zrankL s.pending job_id with
  | some r => (r : Int) + 1
  | none => 0

/-- Line 103's llen against the pending key.  The key holds a sorted set
whenever pending is nonempty, and Redis answers LLEN on it with a WRONGTYPE
error; an absent key (pending empty) reports length 0. -/
def llenPending (s : Store) : Except String Nat :=
  if s.pending.isEmpty then .ok 0
  else .error "WRONGTYPE Operation against a key holding the wrong kind of value"

/-- QueueManager.submit_job.  Reads the queue size with llen against the
pending key (an uncaught WRONGTYPE error whenever pending is nonempty),
checks the cap, then the monthly quota, then writes: zadd into pending, the
job hash, the monthly counter with its 30-day TTL; finally computes position
and estimates. -/
def submit_job (s : Store) (job : ProjectJob) (t : ℚ) (now : DT) :
    Except String (SubmitResult × Store) :=
  (llenPending s).bind fun queue_size =>
  if queue_size ≥ MAX_QUEUE_SIZE then
    .error "Queue is full. Please try again later."
  else
    match check_user_limit s job.user_id job.tier now with
    | none => .error "KeyError: unknown tier"
    | some false => .error "Monthly project limit reached. Please upgrade."
    | some true =>
      let job_data := serialize_job job
      let sc := scoreOf job.priority t
      let s1 := s.zadd job.job_id sc
      let s2 := s1.hset ("job:" ++ job.job_id) job_data
      let mk := monthKey job.user_id now
      let s3 := s2.incr mk
      let s4 := s3.expire mk 2592000
      let position := queuePositionOf s4 job.job_id
      let est : EstStart := ⟨now, (position : ℚ) * (POSITION_ESTIMATE_SECONDS : ℚ) / 60⟩
      .ok ({ job_id := job.job_id, status := "queued", queue_position := position,
             estimated_start := est, estimated_wait_minutes := position * 10 }, s4)

/-- QueueManager.get_next_job: refuse over the concurrency cap, otherwise pop
the lowest-scored pending member, move it to processing, mark the job hash
processing and set the timeout key. -/
def get_next_job (s : Store) (worker_id : String) (now : DT) :
    Except String (Option ProjectJob × Store) :=
  if s.processing.length ≥ MAX_CONCURRENT_JOBS then .ok (none, s)
  else
    match zmin s.pending with
    | none => .ok (none, s)
    | some (job_id, _score) =>
      let s1 := s.zremPending job_id
      let s2 := s1.lpushProcessing job_id
      let job_data := s2.hgetall ("job:" ++ job_id)
      match deserialize_job job_data with
      | none => .error "deserialize failed"
      | some job0 =>
        let job := { job0 with status := JobStatus.processing, started_at := some now,
                               worker_id := some worker_id }
        let s3 := s2.hset ("job:" ++ job_id) (serialize_job job)
        let s4 := s3.setex ("job:" ++ job_id ++ ":timeout") JOB_TIMEOUT_SECONDS "1"
        .ok (some job, s4)

/-- QueueManager.complete_job. -/
def complete_job (s : Store) (job_id result_url : String) (now : DT) :
    Except String Store :=
  let s1 := s.lremProcessing job_id
  let job_data := s1.hgetall ("job:" ++ job_id)
  match deserialize_job job_data with
  | none => .error "deserialize failed"
  | some job0 =>
    let job := { job0 with status := JobStatus.completed, completed_at := some now,
                           result_url := some result_url }
    let s2 := s1.hset ("job:" ++ job_id) (serialize_job job)
    let s3 := s2.lpushCompleted job_id
    let s4 := s3.expire ("job:" ++ job_id) 604800
    .ok s4

/-- QueueManager.fail_job. -/
def fail_job (s : Store) (job_id error : String) (now : DT) : Except String Store :=
  let s1 := s.lremProcessing job_id
  let job_data := s1.hgetall ("job:" ++ job_id)
  match deserialize_job job_data with
  | none => .error "deserialize failed"
  | some job0 =>
    let job := { job0 with status := JobStatus.failed, completed_at := some now,
                           error_message := some error }
    let s2 := s1.hset ("job:" ++ job_id) (serialize_job job)
    let s3 := s2.lpushFailed job_id
    .ok s3

/-- The stats dict. -/
structure QueueStats where
  pending : Nat
  processing : Nat
  completed_today : Nat
  failed_today : Nat
  avg_processing_time_minutes : ℚ
  estimated_wait_minutes : Nat
deriving DecidableEq

/-- QueueManager._get_completed_today (reads the ring length). -/
def get_completed_today (s : Store) : Nat := s.completed.length

/-- QueueManager._get_failed_today (reads the ring length). -/
def get_failed_today (s : Store) : Nat := s.failed.length

/-- QueueManager._get_avg_processing_time (the hard-coded 12.5 minutes). -/
def get_avg_processing_time : ℚ := 25 / 2

/-- QueueManager._estimate_wait_time. -/
def estimate_wait_time (s : Store) : Nat :=
  (s.pending.length / MAX_CONCURRENT_JOBS) * 10

/-- QueueManager.get_queue_stats. -/
def get_queue_stats (s : Store) : QueueStats :=
  { pending := s.pending.length,
    processing := s.processing.length,
    completed_today := get_completed_today s,
    failed_today := get_failed_today s,
    avg_processing_time_minutes := get_avg_processing_time,
    estimated_wait_minutes := estimate_wait_time s }

/-! ### Support lemmas about the store primitives -/

theorem lookupA_setA_present {α : Type} (l : List (String × α)) (k : String) (v w : α)
    (h : lookupA l k = some w) : lookupA (setA l k v) k = some v := by
  induction l with
  | nil => simp [lookupA] at h
  | cons a r ih =>
    rw [lookupA] at h
    by_cases hk : a.1 = k
    · rw [setA, if_pos (by simp [List.any_cons, hk])]
      simp only [List.map_cons, if_pos hk]
      rw [lookupA, if_pos rfl]
    · rw [if_neg hk] at h
      have := ih h
      rw [setA] at this ⊢
      by_cases hany : r.any (fun p => p.1 = k)
      · rw [if_pos (by simp [List.any_cons, hany])]
        rw [if_pos hany] at this
        simp only [List.map_cons, if_neg hk]
        rw [lookupA, if_neg hk]
        exact this
      · have hanyc : ¬((a :: r).any (fun p => p.1 = k) = true) := by
          simp only [List.any_cons, Bool.or_eq_true, decide_eq_true_eq]
          push_neg
          exact ⟨hk, hany⟩
        rw [if_neg hanyc]
        rw [if_neg hany] at this
        rw [List.cons_append, lookupA, if_neg hk]
        exact this

theorem lookupA_append_none {α : Type} (l m : List (String × α)) (k : String)
    (h : lookupA l k = none) : lookupA (l ++ m) k = lookupA m k := by
  induction l with
  | nil => simp
  | cons a r ih =>
    rw [lookupA] at h
    by_cases hk : a.1 = k
    · rw [if_pos hk] at h; exact absurd h (by simp)
    · rw [if_neg hk] at h
      rw [List.cons_append, lookupA, if_neg hk]
      exact ih h

theorem lookupA_append_single {α : Type} (l : List (String × α)) (k : String) (v : α)
    (h : lookupA l k = none) : lookupA (l ++ [(k, v)]) k = some v := by
  rw [lookupA_append_none l _ k h, lookupA, if_pos rfl]

theorem getCounter_incr (s : Store) (k : String) :
    getCounter (s.incr k) k = getCounter s k + 1 := by
  rw [Store.incr, getCounter, getCounter]
  match hl : lookupA s.counters k with
  | some v =>
    simp only [hl]
    rw [lookupA_setA_present s.counters k (v + 1) v hl]
    rfl
  | none =>
    simp only [hl]
    rw [lookupA_append_single s.counters k 1 hl]
    rfl

/-- ZADD always leaves the member present with the given score. -/
theorem zaddL_mem (l : List (String × ℚ)) (m : String) (sc : ℚ) :
    (m, sc) ∈ zaddL l m sc := by
  rw [zaddL]
  by_cases hany : l.any (fun p => p.1 = m)
  · rw [if_pos hany]
    obtain ⟨p, hp, hpm⟩ : ∃ p ∈ l, p.1 = m := by
      simpa using hany
    exact List.mem_map.mpr ⟨p, hp, by simp [hpm]⟩
  · rw [if_neg hany]
    simp

/-- The first lookup a successful deserialize performed: the stored job_id. -/
theorem deserialize_job_id (data : List (String × String)) (j : ProjectJob)
    (h : deserialize_job data = some j) : lookupA data "job_id" = some j.job_id := by
  unfold deserialize_job at h
  simp only [bind, Option.bind_eq_some] at h
  obtain ⟨jid, hjid, uid, huid, tv, htv, ps, hps, pj, hpj, st, hst, stv, hstv,
    pr, hpr, prv, hprv, ca, hca, cav, hcav, sa, hsa, coA, hcoA, hj⟩ := h
  simp only [Option.some.injEq] at hj
  rw [hjid]
  rw [← hj]

/-! ### C7: the concurrency cap -/

/-- C7: whenever the in-flight list length is at least MAX_CONCURRENT_JOBS
(default 3), get_next_job returns None and leaves the whole store, in
particular the pending set and the in-flight list, unchanged. -/
theorem C7_concurrency_cap (s : Store) (w : String) (now : DT)
    (h : MAX_CONCURRENT_JOBS ≤ s.processing.length) :
    get_next_job s w now = .ok (none, s) := by
  rw [get_next_job, if_pos h]

def fixBusyStore : Store :=
  { processing := ["a", "b", "c"], pending := [("J", 5)] }

def fixNow : DT := ⟨2025, 1, 2, 3, 4, 5, 6⟩

theorem C7_concurrency_cap_witness :
    MAX_CONCURRENT_JOBS ≤ fixBusyStore.processing.length ∧
      get_next_job fixBusyStore "w1" fixNow = .ok (none, fixBusyStore) :=
  ⟨by decide, C7_concurrency_cap fixBusyStore "w1" fixNow (by decide)⟩

/-! ### C9: completed_today / failed_today -/

/-- C9: the stats operation computes completed_today and failed_today as the
raw lengths of the completed and failed rings, taking no clock or date at
all, instead of reading daily bucket counters keyed by the current UTC date;
the counts are therefore lifetime totals, not counts for the current day. -/
theorem C9_stats_read_ring_lengths (s : Store) :
    (get_queue_stats s).completed_today = s.completed.length ∧
      (get_queue_stats s).failed_today = s.failed.length :=
  ⟨rfl, rfl⟩

theorem C9_stats_read_ring_lengths_witness :
    (get_queue_stats { completed := ["A", "B"], failed := ["C"] }).completed_today = 2 ∧
      (get_queue_stats { completed := ["A", "B"], failed := ["C"] }).failed_today = 1 :=
  (C9_stats_read_ring_lengths { completed := ["A", "B"], failed := ["C"] })

/-! ### C1: claim_next pops a minimal-score member -/

theorem get_next_job_pop (s : Store) (w : String) (now : DT) (m : String) (sc : ℚ)
    (hcap : ¬(s.processing.length ≥ MAX_CONCURRENT_JOBS))
    (hz : zmin s.pending = some (m, sc)) :
    get_next_job s w now =
      (match deserialize_job (((s.zremPending m).lpushProcessing m).hgetall ("job:" ++ m)) with
       | none => .error "deserialize failed"
       | some job0 =>
         .ok (some { job0 with status := JobStatus.processing, started_at := some now,
                               worker_id := some w },
           ((((s.zremPending m).lpushProcessing m).hset ("job:" ++ m)
             (serialize_job { job0 with status := JobStatus.processing,
                                        started_at := some now, worker_id := some w })).setex
             ("job:" ++ m ++ ":timeout") JOB_TIMEOUT_SECONDS "1"))) := by
  rw [get_next_job, if_neg hcap, hz]

/-- C1: whenever get_next_job returns a job (the hash it loads names the
member it popped, as every hash the program writes does), the returned
job_id is the member of pending with the minimal score at call time, that
member is removed from pending, and it is pushed onto the in-flight list. -/
theorem C1_claim_next_pops_min (s : Store) (w : String) (now : DT) (m : String) (sc : ℚ)
    (job : ProjectJob) (s1 : Store)
    (hz : zmin s.pending = some (m, sc))
    (hcons : (lookupA s.hashes ("job:" ++ m)).bind (fun h => lookupA h "job_id") = some m)
    (hok : get_next_job s w now = .ok (some job, s1)) :
    job.job_id = m ∧ (m, sc) ∈ s.pending ∧ (∀ q ∈ s.pending, sc ≤ q.2) ∧
      s1.pending = zremL s.pending m ∧ s1.processing = m :: s.processing := by
  by_cases hcap : s.processing.length ≥ MAX_CONCURRENT_JOBS
  · rw [get_next_job, if_pos hcap] at hok
    exact absurd hok (by simp)
  · rw [get_next_job_pop s w now m sc hcap hz] at hok
    match hdes : deserialize_job (((s.zremPending m).lpushProcessing m).hgetall ("job:" ++ m)) with
    | none =>
      rw [hdes] at hok
      exact absurd hok (by simp)
    | some job0 =>
      rw [hdes] at hok
      simp only [Except.ok.injEq, Prod.mk.injEq, Option.some.injEq] at hok
      obtain ⟨hjob, hs1⟩ := hok
      obtain ⟨h0, hjid0⟩ : ∃ h0, lookupA s.hashes ("job:" ++ m) = some h0 ∧
          lookupA h0 "job_id" = some m := by
        match hl : lookupA s.hashes ("job:" ++ m) with
        | none => rw [hl] at hcons; exact absurd hcons (by simp)
        | some h0 =>
          rw [hl] at hcons
          exact ⟨h0, rfl, by simpa using hcons⟩
      have hdata : (((s.zremPending m).lpushProcessing m).hgetall ("job:" ++ m)) = h0 := by
        rw [Store.hgetall]
        show (lookupA s.hashes ("job:" ++ m)).getD [] = h0
        rw [hjid0.1]
        rfl
      have hjid : job0.job_id = m := by
        have := deserialize_job_id _ _ (hdata ▸ hdes)
        rw [hjid0.2] at this
        exact (Option.some.injEq _ _ ▸ this).symm
      refine ⟨?_, zmin_mem _ _ hz, zmin_le _ _ hz, ?_, ?_⟩
      · rw [← hjob]
        exact hjid
      · rw [← hs1]
        rfl
      · rw [← hs1]
        rfl

def jobJ : ProjectJob :=
  { job_id := "J", user_id := "u1", tier := "free",
    project_schema := .obj [("name", .str "demo")], status := .queued,
    priority := 3, created_at := ⟨2025, 1, 2, 3, 4, 5, 6⟩ }

def c1Store : Store := { pending := [("J", 5)], hashes := [("job:J", serialize_job jobJ)] }

def c1OutJob : ProjectJob :=
  { job_id := "J", user_id := "u1", tier := "free",
    project_schema := .obj [("name", .str "demo")], status := .processing,
    priority := 3, created_at := ⟨2025, 1, 2, 3, 4, 5, 6⟩,
    started_at := some fixNow, completed_at := none,
    error_message := some "None", result_url := some "None",
    queue_position := none, estimated_start := none, worker_id := some "w1" }

def c1OutStore : Store :=
  { pending := [],
    processing := ["J"],
    hashes := [("job:J", serialize_job c1OutJob)],
    log := [.zrem QUEUE_PENDING "J", .lpush QUEUE_PROCESSING "J",
            .hset "job:J" (serialize_job c1OutJob),
            .setex "job:J:timeout" JOB_TIMEOUT_SECONDS "1"] }

theorem C1_claim_next_pops_min_witness :
    c1OutJob.job_id = "J" ∧ ("J", (5 : ℚ)) ∈ c1Store.pending ∧
      (∀ q ∈ c1Store.pending, (5 : ℚ) ≤ q.2) ∧
      c1OutStore.pending = zremL c1Store.pending "J" ∧
      c1OutStore.processing = "J" :: c1Store.processing :=
  C1_claim_next_pops_min c1Store "w1" fixNow "J" 5 c1OutJob c1OutStore
    (by decide) (by decide) (by rfl)

/-! ### C3 and C4: complete_job and fail_job -/

set_option maxHeartbeats 2000000 in
/-- Rewriting a job hash with a full serialized mapping replaces every field:
both serializations carry exactly the same field names in the same order. -/
theorem hashSet_serialize (a b : ProjectJob) :
    hashSet (serialize_job a) (serialize_job b) = serialize_job b := by
  simp [hashSet, serialize_job, setA]

/-- Full characterization of complete_job on a state whose job hash holds a
serialized job: it always succeeds, removes every in-flight occurrence,
rewrites the hash to the completed job, and pushes the id onto the completed
ring, whatever status the stored job had. -/
theorem complete_job_spec (s : Store) (jid url : String) (now : DT) (j : ProjectJob)
    (hh : lookupA s.hashes ("job:" ++ jid) = some (serialize_job j)) (hwf : j.wf) :
    complete_job s jid url now = .ok
      { s with processing := lremAll s.processing jid,
               hashes := setA s.hashes ("job:" ++ jid)
                 (serialize_job { jCanon j with status := JobStatus.completed,
                                                 completed_at := some now,
                                                 result_url := some url }),
               completed := jid :: s.completed,
               log := s.log ++ [.lrem QUEUE_PROCESSING 0 jid,
                 .hset ("job:" ++ jid)
                   (serialize_job { jCanon j with status := JobStatus.completed,
                                                   completed_at := some now,
                                                   result_url := some url }),
                 .lpush QUEUE_COMPLETED jid,
                 .expireE ("job:" ++ jid) 604800] } := by
  have hdata : ((s.lremProcessing jid).hgetall ("job:" ++ jid)) = serialize_job j := by
    rw [Store.hgetall]
    show (lookupA s.hashes ("job:" ++ jid)).getD [] = _
    rw [hh]
    rfl
  have hdes : deserialize_job ((s.lremProcessing jid).hgetall ("job:" ++ jid)) =
      some (jCanon j) := by
    rw [hdata]
    exact deserialize_serialize j hwf
  rw [complete_job]
  rw [hdes]
  simp only [Store.hset, Store.lremProcessing, Store.lpushCompleted, Store.expire]
  rw [show lookupA s.hashes ("job:" ++ jid) = some (serialize_job j) from hh]
  simp only [hashSet_serialize]
  simp [List.append_assoc]

/-- Full characterization of fail_job: it always marks the stored job failed
with the error message and completion stamp, removes it from in-flight, and
appends it to the failed ring; pending is untouched and no re-enqueue path
exists. -/
theorem fail_job_spec (s : Store) (jid err : String) (now : DT) (j : ProjectJob)
    (hh : lookupA s.hashes ("job:" ++ jid) = some (serialize_job j)) (hwf : j.wf) :
    fail_job s jid err now = .ok
      { s with processing := lremAll s.processing jid,
               hashes := setA s.hashes ("job:" ++ jid)
                 (serialize_job { jCanon j with status := JobStatus.failed,
                                                 completed_at := some now,
                                                 error_message := some err }),
               failed := jid :: s.failed,
               log := s.log ++ [.lrem QUEUE_PROCESSING 0 jid,
                 .hset ("job:" ++ jid)
                   (serialize_job { jCanon j with status := JobStatus.failed,
                                                   completed_at := some now,
                                                   error_message := some err }),
                 .lpush QUEUE_FAILED jid] } := by
  have hdata : ((s.lremProcessing jid).hgetall ("job:" ++ jid)) = serialize_job j := by
    rw [Store.hgetall]
    show (lookupA s.hashes ("job:" ++ jid)).getD [] = _
    rw [hh]
    rfl
  have hdes : deserialize_job ((s.lremProcessing jid).hgetall ("job:" ++ jid)) =
      some (jCanon j) := by
    rw [hdata]
    exact deserialize_serialize j hwf
  rw [fail_job]
  rw [hdes]
  simp only [Store.hset, Store.lremProcessing, Store.lpushFailed]
  rw [show lookupA s.hashes ("job:" ++ jid) = some (serialize_job j) from hh]
  simp only [hashSet_serialize]
  simp [List.append_assoc]

def jobP : ProjectJob :=
  { jobJ with status := .processing, started_at := some fixNow, worker_id := some "w1" }

def fixProcStore : Store :=
  { processing := ["J"], hashes := [("job:J", serialize_job jobP)] }

def c3S1 : Store :=
  match complete_job fixProcStore "J" "http://res" fixNow with
  | .ok s => s
  | .error _ => fixProcStore

def c3S2 : Store :=
  match complete_job c3S1 "J" "http://res" fixNow with
  | .ok s => s
  | .error _ => c3S1

/-- C3 counterexample: complete_job is not idempotent.  On a store holding
one processing job J, a first complete leaves the completed ring at one
entry; a second complete with the same arguments succeeds again and pushes
J onto the completed ring a second time, so complete(J) then complete(J)
does not equal complete(J) alone: the final stores differ. -/
theorem C3_counterexample_double_complete :
    complete_job fixProcStore "J" "http://res" fixNow = .ok c3S1 ∧
      complete_job c3S1 "J" "http://res" fixNow = .ok c3S2 ∧
      c3S1.completed = ["J"] ∧
      c3S2.completed = ["J", "J"] ∧
      ¬(c3S2 = c3S1) :=
  ⟨rfl, rfl, rfl, rfl, by decide⟩

/-- C3 amended: complete_job on a job already stored as completed is still
accepted (no status guard exists): it leaves pending untouched and the job
hash completed (restamping completed_at and result_url), but it appends the
job id to the completed ring again, so the store is not left exactly as the
single first call left it - the ring gains a duplicate entry. -/
theorem C3_amended_second_complete (s : Store) (jid url : String) (now : DT)
    (j : ProjectJob) (s1 : Store)
    (hh : lookupA s.hashes ("job:" ++ jid) = some (serialize_job j))
    (hst : j.status = JobStatus.completed)
    (hwf : j.wf)
    (hok : complete_job s jid url now = .ok s1) :
    s1.completed = jid :: s.completed ∧ s1.pending = s.pending ∧
      s1.processing = lremAll s.processing jid ∧
      lookupA s1.hashes ("job:" ++ jid) =
        some (serialize_job { jCanon j with status := JobStatus.completed,
                                            completed_at := some now,
                                            result_url := some url }) := by
  have hspec := complete_job_spec s jid url now j hh hwf
  rw [hspec] at hok
  simp only [Except.ok.injEq] at hok
  subst hok
  exact ⟨rfl, rfl, rfl, lookupA_setA_present _ _ _ _ hh⟩

def jC1 : ProjectJob :=
  { jCanon jobP with status := .completed, completed_at := some fixNow,
                     result_url := some "http://res" }

theorem C3_amended_second_complete_witness :
    c3S2.completed = "J" :: c3S1.completed ∧ c3S2.pending = c3S1.pending ∧
      c3S2.processing = lremAll c3S1.processing "J" ∧
      lookupA c3S2.hashes ("job:" ++ "J") =
        some (serialize_job { jCanon jC1 with status := JobStatus.completed,
                                              completed_at := some fixNow,
                                              result_url := some "http://res" }) :=
  C3_amended_second_complete c3S1 "J" "http://res" fixNow jC1 c3S2
    (by rfl) (by rfl) (by decide) (by rfl)

/-! ### C4: fail_job has no retry branch -/

def c4S1 : Store :=
  match fail_job fixProcStore "J" "boom" fixNow with
  | .ok s => s
  | .error _ => fixProcStore

/-- C4 counterexample: the claim predicts that failing a processing job with
retryable true and attempt below MAX_ATTEMPTS re-enqueues it into pending
with status queued.  The code's fail_job takes no retryable flag and tracks
no attempt counter: on a store with processing job J (a first attempt, so
any retry policy would re-enqueue), fail_job leaves pending empty, marks
the stored job failed, and appends J to the failed ring. -/
theorem C4_counterexample_no_retry :
    fail_job fixProcStore "J" "boom" fixNow = .ok c4S1 ∧
      c4S1.pending = [] ∧
      (deserialize_job (c4S1.hgetall "job:J")).map ProjectJob.status =
        some JobStatus.failed ∧
      c4S1.failed = ["J"] ∧
      ¬(JobStatus.failed = JobStatus.queued) :=
  ⟨rfl, rfl, rfl, rfl, by decide⟩

/-- C4 amended: for every job stored as processing, fail_job (which has no
retryable parameter and no attempt counter) unconditionally sets
status=failed, populates error_message and completed_at, removes the job
from the in-flight list, and appends it to the failed ring; pending is
untouched, so no re-enqueue path exists. -/
theorem C4_amended_fail_always_terminal (s : Store) (jid err : String) (now : DT)
    (j : ProjectJob) (s1 : Store)
    (hh : lookupA s.hashes ("job:" ++ jid) = some (serialize_job j))
    (hst : j.status = JobStatus.processing)
    (hwf : j.wf)
    (hok : fail_job s jid err now = .ok s1) :
    s1.pending = s.pending ∧
      s1.processing = lremAll s.processing jid ∧
      s1.failed = jid :: s.failed ∧
      lookupA s1.hashes ("job:" ++ jid) =
        some (serialize_job { jCanon j with status := JobStatus.failed,
                                            completed_at := some now,
                                            error_message := some err }) := by
  have hspec := fail_job_spec s jid err now j hh hwf
  rw [hspec] at hok
  simp only [Except.ok.injEq] at hok
  subst hok
  exact ⟨rfl, rfl, rfl, lookupA_setA_present _ _ _ _ hh⟩

theorem C4_amended_fail_always_terminal_witness :
    c4S1.pending = fixProcStore.pending ∧
      c4S1.processing = lremAll fixProcStore.processing "J" ∧
      c4S1.failed = "J" :: fixProcStore.failed ∧
      lookupA c4S1.hashes ("job:" ++ "J") =
        some (serialize_job { jCanon jobP with status := JobStatus.failed,
                                               completed_at := some fixNow,
                                               error_message := some "boom" }) :=
  C4_amended_fail_always_terminal fixProcStore "J" "boom" fixNow jobP c4S1
    (by rfl) (by rfl) (by decide) (by rfl)

/-! ### C2 and C8: the enqueue score and the order of submit's writes -/

def emptyStore : Store := {}

def subJobA : ProjectJob :=
  { job_id := "A", user_id := "u", tier := "enterprise", project_schema := .obj [],
    status := .queued, priority := 0, created_at := fixNow }

def subJobB : ProjectJob :=
  { job_id := "B", user_id := "u", tier := "pro", project_schema := .obj [],
    status := .queued, priority := 1, created_at := fixNow }

def subS1 : Store :=
  match submit_job emptyStore subJobA 3000000 fixNow with
  | .ok p => p.2
  | .error _ => emptyStore

def subS2 : Store :=
  match submit_job emptyStore subJobB 0 fixNow with
  | .ok p => p.2
  | .error _ => emptyStore

/-- C2 counterexample: the score formula priority * 1000000 + epoch-seconds
does not always order a lower priority number strictly below a higher one.
A submit of job B (priority 1) at epoch second 0 writes pending score
1000000 and a submit of job A (priority 0) at epoch second 3000000 writes
pending score 3000000: the strictly lower priority number received the
strictly higher score, because the submission times differ by more than the
1000000-second shift.  (The two members never coexist inside one pending
set: a submit against nonempty pending dies in llen's WRONGTYPE error, so
each score is written by a submit against an empty set.) -/
theorem C2_counterexample_score_inversion :
    subS2.pending = [("B", scoreOf subJobB.priority 0)] ∧
      subS1.pending = [("A", scoreOf subJobA.priority 3000000)] ∧
      subJobA.priority < subJobB.priority ∧
      scoreOf subJobB.priority 0 < scoreOf subJobA.priority 3000000 :=
  ⟨rfl, rfl, by decide, by norm_num [scoreOf, subJobA, subJobB]⟩

/-- A successful submit, written out: llen finds the pending key absent
(the set is empty, so no WRONGTYPE), both guards pass and the four writes
happen, with the position and estimates computed from the written store. -/
theorem submit_job_ok (s : Store) (job : ProjectJob) (t : ℚ) (now : DT)
    (hemp : s.pending = [])
    (hquota : check_user_limit s job.user_id job.tier now = some true) :
    submit_job s job t now = .ok
      ({ job_id := job.job_id, status := "queued",
         queue_position := queuePositionOf ((((s.zadd job.job_id
           (scoreOf job.priority t)).hset ("job:" ++ job.job_id)
           (serialize_job job)).incr (monthKey job.user_id now)).expire
           (monthKey job.user_id now) 2592000) job.job_id,
         estimated_start := ⟨now, (queuePositionOf ((((s.zadd job.job_id
           (scoreOf job.priority t)).hset ("job:" ++ job.job_id)
           (serialize_job job)).incr (monthKey job.user_id now)).expire
           (monthKey job.user_id now) 2592000) job.job_id : ℚ) *
           (POSITION_ESTIMATE_SECONDS : ℚ) / 60⟩,
         estimated_wait_minutes := queuePositionOf ((((s.zadd job.job_id
           (scoreOf job.priority t)).hset ("job:" ++ job.job_id)
           (serialize_job job)).incr (monthKey job.user_id now)).expire
           (monthKey job.user_id now) 2592000) job.job_id * 10 },
       (((s.zadd job.job_id (scoreOf job.priority t)).hset ("job:" ++ job.job_id)
         (serialize_job job)).incr (monthKey job.user_id now)).expire
         (monthKey job.user_id now) 2592000) := by
  have h0 : llenPending s = .ok 0 := by rw [llenPending, hemp]; rfl
  rw [submit_job, h0]
  simp only [Except.bind]
  rw [if_neg (by decide), hquota]

/-- C2 amended: every successful submit - possible only against an empty
pending set, since llen raises WRONGTYPE otherwise - writes the job into
pending with score priority * 1000000 + submission epoch seconds (the shift
is exactly 10^6); as a mapping, a strictly lower priority number gives a
strictly lower score only while the submission-time difference stays below
the priority difference times 10^6, and equal-priority jobs are ordered
strictly by submission time. -/
theorem C2_amended_score_order :
    (∀ (s : Store) (job : ProjectJob) (t : ℚ) (now : DT),
        s.pending = [] →
        check_user_limit s job.user_id job.tier now = some true →
        ∃ r s1, submit_job s job t now = .ok (r, s1) ∧
          (job.job_id, scoreOf job.priority t) ∈ s1.pending) ∧
    (∀ (p1 p2 : Int) (t1 t2 : ℚ), p1 < p2 →
        t1 - t2 < ((p2 - p1 : Int) : ℚ) * 1000000 → scoreOf p1 t1 < scoreOf p2 t2) ∧
    (∀ (p : Int) (t1 t2 : ℚ), t1 < t2 → scoreOf p t1 < scoreOf p t2) := by
  refine ⟨?_, ?_, ?_⟩
  · intro s job t now hemp hquota
    refine ⟨_, _, submit_job_ok s job t now hemp hquota, ?_⟩
    exact zaddL_mem s.pending job.job_id (scoreOf job.priority t)
  · intro p1 p2 t1 t2 hp ht
    rw [scoreOf, scoreOf]
    have hcast : ((p1 : ℚ)) * 1000000 + 1 * 1000000 ≤ (p2 : ℚ) * 1000000 := by
      have h1 : (p1 : ℚ) + 1 ≤ (p2 : ℚ) := by
        have : p1 + 1 ≤ p2 := hp
        exact_mod_cast this
      nlinarith
    have hd : ((p2 - p1 : Int) : ℚ) = (p2 : ℚ) - (p1 : ℚ) := by push_cast; ring
    rw [hd] at ht
    nlinarith
  · intro p t1 t2 ht
    rw [scoreOf, scoreOf]
    linarith

theorem C2_amended_score_order_witness :
    (∃ r s1, submit_job emptyStore subJobA 3000000 fixNow = .ok (r, s1) ∧
      (subJobA.job_id, scoreOf subJobA.priority 3000000) ∈ s1.pending) ∧
    scoreOf 0 5 < scoreOf 1 3 ∧
    scoreOf 2 1 < scoreOf 2 2 :=
  ⟨C2_amended_score_order.1 emptyStore subJobA 3000000 fixNow rfl (by rfl),
   C2_amended_score_order.2.1 0 1 5 3 (by decide) (by norm_num),
   C2_amended_score_order.2.2 2 1 2 (by norm_num)⟩

def isZaddEv : Ev → Bool
  | .zadd _ _ _ => true
  | _ => false

def isHsetEv : Ev → Bool
  | .hset _ _ => true
  | _ => false

def isIncrEv : Ev → Bool
  | .incr _ => true
  | _ => false

/-- C8 counterexample: on a concrete successful submit the write log is
zadd into pending first, then the job-hash write, then the counter
increment and its TTL; so the job-hash write does not come first and the
sorted-set write is not last, contradicting the claimed hash-counter-zadd
ordering at this input. -/
theorem C8_counterexample_zadd_first :
    subS1.log = [.zadd QUEUE_PENDING "A" (scoreOf subJobA.priority 3000000),
      .hset "job:A" (serialize_job subJobA),
      .incr (monthKey "u" fixNow),
      .expireE (monthKey "u" fixNow) 2592000] ∧
      subS1.log.findIdx isZaddEv = 0 ∧
      subS1.log.findIdx isHsetEv = 1 ∧
      subS1.log.findIdx isIncrEv = 2 ∧
      ¬(subS1.log.findIdx isHsetEv < subS1.log.findIdx isZaddEv) ∧
      ¬(subS1.log.findIdx isZaddEv = subS1.log.length - 1) :=
  ⟨rfl, by decide, by decide, by decide, by decide, by decide⟩

/-- C8 amended: a successful submit - possible only against an empty
pending set, since llen raises WRONGTYPE otherwise - performs its writes in
the order: zadd into the pending sorted set first, the job hash write
second, and the monthly counter increment (with its TTL refresh) last - the
sorted-set write leads and the hash and counter writes follow it. -/
theorem C8_amended_write_order (s : Store) (job : ProjectJob) (t : ℚ) (now : DT)
    (hemp : s.pending = [])
    (hquota : check_user_limit s job.user_id job.tier now = some true) :
    ∃ r s1, submit_job s job t now = .ok (r, s1) ∧
      s1.log = s.log ++ [.zadd QUEUE_PENDING job.job_id (scoreOf job.priority t),
        .hset ("job:" ++ job.job_id) (serialize_job job),
        .incr (monthKey job.user_id now),
        .expireE (monthKey job.user_id now) 2592000] := by
  refine ⟨_, _, submit_job_ok s job t now hemp hquota, ?_⟩
  show ((((s.zadd job.job_id (scoreOf job.priority t)).hset ("job:" ++ job.job_id)
      (serialize_job job)).incr (monthKey job.user_id now)).expire
      (monthKey job.user_id now) 2592000).log = _
  simp [Store.zadd, Store.hset, Store.incr, Store.expire]

theorem C8_amended_write_order_witness :
    ∃ r s1, submit_job emptyStore subJobA 3000000 fixNow = .ok (r, s1) ∧
      s1.log = emptyStore.log ++
        [.zadd QUEUE_PENDING subJobA.job_id (scoreOf subJobA.priority 3000000),
         .hset ("job:" ++ subJobA.job_id) (serialize_job subJobA),
         .incr (monthKey subJobA.user_id fixNow),
         .expireE (monthKey subJobA.user_id fixNow) 2592000] :=
  C8_amended_write_order emptyStore subJobA 3000000 fixNow rfl (by rfl)

/-! ### C5: the queue cap -/

/-- A submit against a nonempty pending set raises WRONGTYPE from line
103's llen, before any check or write. -/
theorem submit_job_wrongtype (s : Store) (job : ProjectJob) (t : ℚ) (now : DT)
    (hne : s.pending ≠ []) :
    submit_job s job t now =
      .error "WRONGTYPE Operation against a key holding the wrong kind of value" := by
  have h0 : llenPending s =
      .error "WRONGTYPE Operation against a key holding the wrong kind of value" := by
    rw [llenPending, if_neg (by simp [List.isEmpty_iff, hne])]
  rw [submit_job, h0]
  rfl

/-- C5: the queue-capacity check is unreachable as written.  Line 103 reads
the pending key with llen, but that key holds a sorted set whenever pending
is nonempty, so submit raises WRONGTYPE there before any check or write -
not a success below the cap and not the queue-full rejection at it - and
with pending empty llen reports 0, which never meets MAX_QUEUE_SIZE, so the
queue-full error is never returned at all. -/
theorem C5_cap_check_unreachable (s : Store) (job : ProjectJob) (t : ℚ) (now : DT) :
    (s.pending ≠ [] →
      submit_job s job t now =
        .error "WRONGTYPE Operation against a key holding the wrong kind of value") ∧
    submit_job s job t now ≠ .error "Queue is full. Please try again later." := by
  constructor
  · exact submit_job_wrongtype s job t now
  · by_cases hp : s.pending = []
    · have h0 : llenPending s = .ok 0 := by rw [llenPending, hp]; rfl
      rw [submit_job, h0]
      simp only [Except.bind]
      rw [if_neg (by decide)]
      cases hch : check_user_limit s job.user_id job.tier now with
      | none => simp
      | some b => cases b <;> simp
    · rw [submit_job_wrongtype s job t now hp]
      simp

def jobX : ProjectJob :=
  { job_id := "X", user_id := "u", tier := "pro", project_schema := .obj [],
    status := .queued, priority := 1, created_at := fixNow }

def c5Busy : Store := { pending := [("J", 5)] }

theorem C5_cap_check_unreachable_witness :
    submit_job c5Busy jobX 7 fixNow =
      .error "WRONGTYPE Operation against a key holding the wrong kind of value" :=
  (C5_cap_check_unreachable c5Busy jobX 7 fixNow).1 (by simp [c5Busy])

/-! ### C6: the per-user monthly quota -/

theorem getCounter_expire (s : Store) (k : String) (secs : Nat) (k2 : String) :
    getCounter (s.expire k secs) k2 = getCounter s k2 := rfl

theorem getCounter_hset (s : Store) (k : String) (kvs : List (String × String)) (k2 : String) :
    getCounter (s.hset k kvs) k2 = getCounter s k2 := rfl

theorem getCounter_zadd (s : Store) (m : String) (sc : ℚ) (k2 : String) :
    getCounter (s.zadd m sc) k2 = getCounter s k2 := rfl

/-- A quota-rejected submit, written out: llen reports 0 on the absent
pending key, the cap check passes, and _check_user_limit answers false. -/
theorem submit_job_quota_err (s : Store) (job : ProjectJob) (t : ℚ) (now : DT)
    (hemp : s.pending = [])
    (hch : check_user_limit s job.user_id job.tier now = some false) :
    submit_job s job t now = .error "Monthly project limit reached. Please upgrade." := by
  have h0 : llenPending s = .ok 0 := by rw [llenPending, hemp]; rfl
  rw [submit_job, h0]
  simp only [Except.bind]
  rw [if_neg (by decide), hch]

def jobF : ProjectJob :=
  { job_id := "F", user_id := "uf", tier := "free", project_schema := .obj [],
    status := .queued, priority := 3, created_at := fixNow }

def jobF2 : ProjectJob := { jobF with job_id := "F2" }

/-- The store a first free-tier submit leaves behind. -/
def c6S1 : Store :=
  (((emptyStore.zadd jobF.job_id (scoreOf jobF.priority 1)).hset
    ("job:" ++ jobF.job_id) (serialize_job jobF)).incr
    (monthKey jobF.user_id fixNow)).expire (monthKey jobF.user_id fixNow) 2592000

/-- C6 counterexample: the straight-line free-tier scenario fails.  After
the first free-tier submit succeeds (empty store, the monthly counter
reaches 1, the free tier's limit), the second submit by the same user in
the same month is rejected with llen's WRONGTYPE error - the first job is
still pending, so line 103 raises before _check_user_limit ever runs - and
not with the quota error the claim requires. -/
theorem C6_counterexample_wrongtype_preempts_quota :
    (∃ r, submit_job emptyStore jobF 1 fixNow = .ok (r, c6S1)) ∧
    getCounter c6S1 (monthKey jobF.user_id fixNow) = 1 ∧
    submit_job c6S1 jobF2 2 fixNow =
      .error "WRONGTYPE Operation against a key holding the wrong kind of value" ∧
    ¬(submit_job c6S1 jobF2 2 fixNow =
        .error "Monthly project limit reached. Please upgrade.") := by
  refine ⟨⟨_, submit_job_ok emptyStore jobF 1 fixNow rfl (by rfl)⟩, ?_, ?_, ?_⟩
  · show getCounter ((((emptyStore.zadd jobF.job_id (scoreOf jobF.priority 1)).hset
      ("job:" ++ jobF.job_id) (serialize_job jobF)).incr
      (monthKey jobF.user_id fixNow)).expire (monthKey jobF.user_id fixNow) 2592000)
      (monthKey jobF.user_id fixNow) = 1
    rw [getCounter_expire, getCounter_incr, getCounter_hset, getCounter_zadd]
    rfl
  · exact submit_job_wrongtype c6S1 jobF2 2 fixNow (by decide)
  · rw [submit_job_wrongtype c6S1 jobF2 2 fixNow (by decide)]
    simp

/-- C6 amended: the quota table is free=1, indie=10, pro and enterprise
unlimited.  When the pending set is empty at call time - the only case in
which submit survives line 103's llen - submit rejects with the quota error
exactly when the tier has a finite monthly limit that the user's monthly
counter has reached; a free-tier user's first submission of a month is
admitted and bumps the counter to one; a later free-tier submission by a
user whose counter is at least one, made while pending is again empty (the
earlier job having been claimed), rejects with the quota error; and pro and
enterprise submissions are never quota-rejected. -/
theorem C6_amended_quota_empty_pending (s : Store) (job : ProjectJob) (t : ℚ)
    (now : DT) (lim : TierLim)
    (hemp : s.pending = [])
    (hlim : tierLimits (strUpper job.tier) = some lim) :
    (tierLimits "FREE" = some ⟨1, 3, 1⟩ ∧ tierLimits "INDIE" = some ⟨2, 2, 10⟩ ∧
      tierLimits "PRO" = some ⟨3, 1, -1⟩ ∧ tierLimits "ENTERPRISE" = some ⟨5, 0, -1⟩) ∧
    ((submit_job s job t now = .error "Monthly project limit reached. Please upgrade.") ↔
      (¬(lim.monthly_limit = -1) ∧
        lim.monthly_limit ≤ getCounter s (monthKey job.user_id now))) ∧
    (strUpper job.tier = "FREE" → getCounter s (monthKey job.user_id now) = 0 →
      ∃ r s1, submit_job s job t now = .ok (r, s1) ∧
        getCounter s1 (monthKey job.user_id now) = 1) ∧
    (strUpper job.tier = "FREE" → 1 ≤ getCounter s (monthKey job.user_id now) →
      submit_job s job t now = .error "Monthly project limit reached. Please upgrade.") ∧
    ((strUpper job.tier = "PRO" ∨ strUpper job.tier = "ENTERPRISE") →
      ¬(submit_job s job t now = .error "Monthly project limit reached. Please upgrade.")) := by
  refine ⟨⟨rfl, rfl, rfl, rfl⟩, ?_, ?_, ?_, ?_⟩
  · by_cases h1 : lim.monthly_limit = -1
    · have hch : check_user_limit s job.user_id job.tier now = some true := by
        rw [check_user_limit, hlim]
        simp [h1]
      rw [submit_job_ok s job t now hemp hch]
      simp [h1]
    · by_cases h2 : getCounter s (monthKey job.user_id now) < lim.monthly_limit
      · have hch : check_user_limit s job.user_id job.tier now = some true := by
          rw [check_user_limit, hlim]
          simp [h1, h2]
        rw [submit_job_ok s job t now hemp hch]
        constructor
        · intro he
          exact absurd he (by simp)
        · rintro ⟨_, hle⟩
          exact absurd hle (not_le.mpr h2)
      · have hch : check_user_limit s job.user_id job.tier now = some false := by
          rw [check_user_limit, hlim]
          simp [h1, h2]
        rw [submit_job_quota_err s job t now hemp hch]
        simp [h1, not_lt.mp h2]
  · intro hfree hc0
    have hch : check_user_limit s job.user_id job.tier now = some true := by
      rw [check_user_limit, hfree]
      simp [tierLimits, hc0]
    refine ⟨_, _, submit_job_ok s job t now hemp hch, ?_⟩
    show getCounter ((((s.zadd job.job_id (scoreOf job.priority t)).hset
      ("job:" ++ job.job_id) (serialize_job job)).incr
      (monthKey job.user_id now)).expire (monthKey job.user_id now) 2592000)
      (monthKey job.user_id now) = 1
    rw [getCounter_expire, getCounter_incr, getCounter_hset, getCounter_zadd, hc0]
    omega
  · intro hfree h1le
    have hch : check_user_limit s job.user_id job.tier now = some false := by
      rw [check_user_limit, hfree]
      simp [tierLimits, not_lt.mpr h1le]
    exact submit_job_quota_err s job t now hemp hch
  · intro h
    have hch : check_user_limit s job.user_id job.tier now = some true := by
      rcases h with h | h <;> (rw [check_user_limit, h]; simp [tierLimits])
    rw [submit_job_ok s job t now hemp hch]
    simp

theorem C6_amended_quota_empty_pending_witness :
    (tierLimits "FREE" = some ⟨1, 3, 1⟩ ∧ tierLimits "INDIE" = some ⟨2, 2, 10⟩ ∧
      tierLimits "PRO" = some ⟨3, 1, -1⟩ ∧ tierLimits "ENTERPRISE" = some ⟨5, 0, -1⟩) ∧
    ((submit_job emptyStore jobF 1 fixNow =
        .error "Monthly project limit reached. Please upgrade.") ↔
      (¬(((⟨1, 3, 1⟩ : TierLim)).monthly_limit = -1) ∧
        ((⟨1, 3, 1⟩ : TierLim)).monthly_limit ≤
          getCounter emptyStore (monthKey jobF.user_id fixNow))) ∧
    (strUpper jobF.tier = "FREE" →
      getCounter emptyStore (monthKey jobF.user_id fixNow) = 0 →
      ∃ r s1, submit_job emptyStore jobF 1 fixNow = .ok (r, s1) ∧
        getCounter s1 (monthKey jobF.user_id fixNow) = 1) ∧
    (strUpper jobF.tier = "FREE" →
      1 ≤ getCounter emptyStore (monthKey jobF.user_id fixNow) →
      submit_job emptyStore jobF 1 fixNow =
        .error "Monthly project limit reached. Please upgrade.") ∧
    ((strUpper jobF.tier = "PRO" ∨ strUpper jobF.tier = "ENTERPRISE") →
      ¬(submit_job emptyStore jobF 1 fixNow =
          .error "Monthly project limit reached. Please upgrade.")) :=
  C6_amended_quota_empty_pending emptyStore jobF 1 fixNow ⟨1, 3, 1⟩ rfl rfl

/-! ### C10: the job codec round trip -/

/-- C10: deserializing the serialization of any job whose schema is a JSON
dictionary, whose optional string fields are present, and whose timestamps
are within datetime's bounds (started_at and completed_at may each be None
or a datetime) recovers the job on every field except the two transient
position fields, which reset to None. -/
theorem C10_serialize_roundtrip (j : ProjectJob)
    (hschema : ∃ kvs, j.project_schema = Json.obj kvs)
    (hwf : j.wf)
    (he : ∃ es, j.error_message = some es)
    (hr : ∃ rs, j.result_url = some rs)
    (hw : ∃ ws, j.worker_id = some ws) :
    deserialize_job (serialize_job j) =
      some { j with queue_position := none, estimated_start := none } := by
  obtain ⟨es, hes⟩ := he
  obtain ⟨rs, hrs⟩ := hr
  obtain ⟨ws, hws⟩ := hw
  rw [deserialize_serialize j hwf]
  simp [jCanon, optStrPy, hes, hrs, hws]

def jobW : ProjectJob :=
  { job_id := "W", user_id := "uw", tier := "indie",
    project_schema := .obj [("k", .arr [.int 1, .str "x", .null, .bool true])],
    status := .completed, priority := 2, created_at := fixNow,
    started_at := some ⟨2025, 1, 2, 3, 4, 5, 0⟩, completed_at := some fixNow,
    error_message := some "", result_url := some "http://r",
    queue_position := some 7, estimated_start := some fixNow, worker_id := some "w9" }

theorem C10_serialize_roundtrip_witness :
    deserialize_job (serialize_job jobW) =
      some { jobW with queue_position := none, estimated_start := none } :=
  C10_serialize_roundtrip jobW ⟨[("k", .arr [.int 1, .str "x", .null, .bool true])], rfl⟩
    (by decide) ⟨"", rfl⟩ ⟨"http://r", rfl⟩ ⟨"w9", rfl⟩

end Codriver
